import Mathlib

/-!
# Verification development for `backend/updatecache.cc`

A shallow embedding of the Redis cache refresh tool: the cache key builder
`createCacheKey` and the `main` routine with its per-dataset aggregation loop.

Conventions of the embedding:

* The collaborators the tool calls (configuration reader, `RedisCacheService`,
  `cppdb::session`, `Persistence`, `ProgressBar`) are parameters of the model,
  gathered in `World`; every call `main` issues is recorded, in program order,
  in a trace of `Event`s.
* A collaborator call either returns or raises a C++ exception; a raised
  exception is recorded as `Event.exception` right after the call and stops the
  computation (`Exec`), up to the `catch` of line 140 when there is one around.
* `int64_t` and `long` values are unbounded integers: `size / 100` cannot
  overflow and `count` counts the batches closed so far. Division and remainder
  are the truncating ones of C++; the remainder by zero of line 121 is undefined
  behaviour and stops the computation with `Abort.divideByZero`.
* Strings are Lean strings; `std::to_string` of a non-negative integer is
  `Nat.repr`.
-/

namespace UpdateCache

/-! ## Data model -/

/-- Modelled from the spec: the enum `model::ApprovalState` is declared in a
header that is not part of the sources at hand. A value is represented by the
(non-negative) integer of its enumerator, which is what `std::to_string(state)`
prints. -/
abbrev ApprovalState := Nat

/-- Modelled from the spec: `ApprovalState::UNAPPROVED`, "encoded 0". -/
def UNAPPROVED : ApprovalState := 0

/-- A `model::Statement`: the subject returned by `s.qid()` and the rest of the
message, which the tool never inspects. -/
structure Statement where
  qid : String
  payload : String
  deriving DecidableEq

/-- The message `model::Statements`: a repeated field of `Statement`. -/
abbrev Statements := List Statement

/-- The decimal rendering `std::to_string` gives a non-negative integer. -/
def to_string (n : Nat) : String := Nat.repr n

/-- Cache key for an entity and dataset (lines 36-52): the successive `+=` on
`result`, in both branches of the test `dataset == ""`. -/
def createCacheKey (qid : String) (state : ApprovalState) (dataset : String) : String :=
  let result := ""
  if dataset = "" then
    let result := result ++ qid
    let result := result ++ "-"
    let result := result ++ to_string state
    result
  else
    let result := result ++ qid
    let result := result ++ "-"
    let result := result ++ dataset
    let result := result ++ "-"
    let result := result ++ to_string state
    result

/-! ## Collaborators, events and outcomes -/

/-- The collaborator calls at which a C++ exception can be raised. -/
inductive Step where
  | config
  | cacheClient
  | clear
  | connect
  | begin
  | persistence
  | datasets
  | count
  | stream
  | upsert
  | commit
  deriving DecidableEq

/-- What the tool does to its collaborators, one constructor per call site of
`main`. `sqlRollback` stands for `cppdb::session::rollback`, the one operation
of the transaction interface that `main` has no call site for. `exception s` is
recorded when the call of step `s` raises an exception instead of returning.
Log lines, the `TimeLogger` objects and the text written to `std::cout` are not
recorded. -/
inductive Event where
  | readConfig (path : String)
  | newRedisCacheService
  | redisClear
  | newSession
  | sqlBegin
  | newPersistence
  | getDatasets
  | countStatements (state : ApprovalState) (dataset : String)
  | progressUpdate (value : Int)
  | getAllStatements (state : ApprovalState) (dataset : String)
  | redisAdd (key : String) (stmts : Statements)
  | sqlCommit
  | sqlRollback
  | exception (step : Step)
  deriving DecidableEq

/-- The behaviour of the collaborators during one run of the tool. A `Bool` is
`true` when the call returns and `false` when it raises an exception; an
`Option` is `none` when the call raises. The exceptions raised are taken to
derive from `std::exception` (`cppdb::cppdb_error`, `std::runtime_error`,
`cppcms::json::bad_value_cast`). The reader answers from one snapshot, so its
answers depend on the arguments only. -/
structure World where
  /-- Lines 69-71 and the look-ups `config["redis"][...]` of lines 73-74. -/
  readConfig : String → Bool
  /-- The constructor of `RedisCacheService` (line 73). -/
  newRedisCacheService : Bool
  /-- `redis.Clear()` (line 78). -/
  redisClear : Bool
  /-- `build_connection` and the constructor of `cppdb::session` (lines 88-89). -/
  newSession : Bool
  /-- `sql.begin()` (line 91). -/
  sqlBegin : Bool
  /-- The constructor of `Persistence` (line 92). -/
  newPersistence : Bool
  /-- `p.getDatasets()` (line 96). -/
  getDatasets : Option (List String)
  /-- `p.countStatements(state, dataset)` (line 110). -/
  countStatements : ApprovalState → String → Option Int
  /-- `p.getAllStatements(callback, state, dataset)` (line 114): the statements
  handed to the callback, in order, and whether the call raises an exception
  after the last of them (`true`) or returns (`false`). -/
  getAllStatements : ApprovalState → String → List Statement × Bool
  /-- `redis.Add(key, stmts)` (lines 117 and 130). -/
  redisAdd : String → Statements → Bool
  /-- `sql.commit()` (line 137). -/
  sqlCommit : Bool

/-- Why a computation stops before its end: a C++ exception propagates, or the
integer remainder of line 121 is taken with divisor zero, which is undefined
behaviour (on the usual targets the process is killed by SIGFPE). -/
inductive Abort where
  | exception
  | divideByZero
  deriving DecidableEq

deriving instance DecidableEq for Except

/-- A computation of the tool: the events it issues and either its value or the
reason it stopped. -/
structure Exec (α : Type) where
  events : List Event
  result : Except Abort α
  deriving DecidableEq

namespace Exec

/-- The computation that issues nothing and returns `a`. -/
protected def pure {α : Type} (a : α) : Exec α := ⟨[], .ok a⟩

/-- Sequencing: `f` runs only when `x` returned; its events follow those of `x`. -/
protected def bind {α β : Type} (x : Exec α) (f : α → Exec β) : Exec β :=
  match x.result with
  | .ok a => ⟨x.events ++ (f a).events, (f a).result⟩
  | .error e => ⟨x.events, .error e⟩

instance : Monad Exec where
  pure := Exec.pure
  bind := Exec.bind

/-- A call that cannot fail. -/
def emit (e : Event) : Exec Unit := ⟨[e], .ok ()⟩

/-- A call of step `s` that returns when `ok` holds and raises otherwise. -/
def call (e : Event) (s : Step) (ok : Bool) : Exec Unit :=
  if ok then ⟨[e], .ok ()⟩ else ⟨[e, .exception s], .error .exception⟩

/-- A call of step `s` returning a value, or raising when there is none. -/
def callGet {α : Type} (e : Event) (s : Step) (r : Option α) : Exec α :=
  match r with
  | some a => ⟨[e], .ok a⟩
  | none => ⟨[e, .exception s], .error .exception⟩

/-- An exception raised by the call of step `s` that is in progress. -/
def raise {α : Type} (s : Step) : Exec α := ⟨[.exception s], .error .exception⟩

/-- The C++ remainder `a % b` on signed integers: truncated, undefined for
`b = 0`. -/
def rem (a b : Int) : Exec Int :=
  if b = 0 then ⟨[], .error .divideByZero⟩ else ⟨[], .ok (a.tmod b)⟩

end Exec

/-! ## The update loop (lines 99-133) -/

/-- The variables the callback of line 114 captures by reference and writes:
`stmts`, `qid` (both declared per dataset, lines 107-108) and `count` (declared
once before the loop over the datasets, line 99, and never reset). -/
structure Captured where
  stmts : Statements
  qid : String
  count : Int
  deriving DecidableEq

/-- The callback passed to `getAllStatements` (lines 114-127), applied to one
statement `s`. `size` is the value read at line 110. -/
def callback (w : World) (dataset : String) (size : Int) (c : Captured) (s : Statement) :
    Exec Captured := do
  let c ←
    if c.qid ≠ s.qid ∧ c.qid ≠ "" then do
      let key := createCacheKey c.qid UNAPPROVED dataset
      Exec.call (.redisAdd key c.stmts) .upsert (w.redisAdd key c.stmts)
      let c := { c with stmts := [] }
      let c := { c with count := c.count + 1 }
      let r ← Exec.rem c.count (size.tdiv 100)
      if r = 0 then
        Exec.emit (.progressUpdate c.count)
      pure c
    else
      pure c
  let c := { c with stmts := c.stmts ++ [s] }
  pure { c with qid := s.qid }

/-- The callback applied to the statements of a stream, one after the other. -/
def deliver (w : World) (dataset : String) (size : Int) :
    Captured → List Statement → Exec Captured
  | c, [] => pure c
  | c, s :: rest => do
    let c ← callback w dataset size c s
    deliver w dataset size c rest

/-- Modelled from the spec: `Persistence::getAllStatements` is not part of the
sources at hand; it "invokes `visit(statement)` once per matching record", in
the order of the stream, and may fail with an exception. -/
def getAllStatements (w : World) (state : ApprovalState) (dataset : String) (size : Int)
    (c : Captured) : Exec Captured := do
  Exec.emit (.getAllStatements state dataset)
  let c ← deliver w dataset size c (w.getAllStatements state dataset).1
  if (w.getAllStatements state dataset).2 then
    Exec.raise .stream
  else
    pure c

/-- The body of the loop over the datasets (lines 101-132) for one `dataset`;
`count` is the counter of line 99 on entry, the value returned is the counter
on exit. -/
def processDataset (w : World) (count : Int) (dataset : String) : Exec Int := do
  let stmts : Statements := []
  let qid := ""
  let size ← Exec.callGet (.countStatements UNAPPROVED dataset) .count
    (w.countStatements UNAPPROVED dataset)
  Exec.emit (.progressUpdate 0)
  let c ← getAllStatements w UNAPPROVED dataset size ⟨stmts, qid, count⟩
  if c.stmts.length > 0 then
    let key := createCacheKey c.qid UNAPPROVED dataset
    Exec.call (.redisAdd key c.stmts) .upsert (w.redisAdd key c.stmts)
  Exec.emit (.progressUpdate size)
  pure c.count

/-- The loop `for (const auto& dataset : datasets)` of line 100. -/
def forDatasets (w : World) : Int → List String → Exec Int
  | count, [] => pure count
  | count, dataset :: rest => do
    let count ← processDataset w count dataset
    forDatasets w count rest

/-- The body of the `try` block (lines 88-139); its value is the value
returned at line 139. -/
def updateRun (w : World) : Exec Int := do
  Exec.call .newSession .connect w.newSession
  Exec.call .sqlBegin .begin w.sqlBegin
  Exec.call .newPersistence .persistence w.newPersistence
  let datasets ← Exec.callGet .getDatasets .datasets w.getDatasets
  let datasets := "" :: datasets
  let count : Int := 0
  let _ ← forDatasets w count datasets
  Exec.call .sqlCommit .commit w.sqlCommit
  pure 0

/-! ## `main` (lines 55-145) -/

/-- The command-line flags `-c` and `-mode` after `ParseCommandLineFlags`. -/
structure Flags where
  c : String := ""
  mode : String := "update"

/-- How the process ends: `main` returns an exit code, an exception leaves
`main` uncaught (`std::terminate`), or the behaviour is undefined. -/
inductive Outcome where
  | exit (code : Int)
  | terminate
  | undefinedBehaviour
  deriving DecidableEq

/-- A run of the tool: the events issued and how the process ended. -/
structure Run where
  events : List Event
  outcome : Outcome
  deriving DecidableEq

/-- Lines 69-74: read the configuration and construct the cache client. -/
def setUp (fl : Flags) (w : World) : Exec Unit := do
  Exec.call (.readConfig fl.c) .config (w.readConfig fl.c)
  Exec.call .newRedisCacheService .cacheClient w.newRedisCacheService

/-- The function `main` (lines 55-145). -/
def main (fl : Flags) (w : World) : Run :=
  if fl.c = "" then
    ⟨[], .exit 1⟩
  else
    match (setUp fl w).result with
    | .error _ => ⟨(setUp fl w).events, .terminate⟩
    | .ok _ =>
      if fl.mode = "clear" then
        let r := Exec.call .redisClear .clear w.redisClear
        match r.result with
        | .ok _ => ⟨(setUp fl w).events ++ r.events, .exit 0⟩
        | .error _ => ⟨(setUp fl w).events ++ r.events, .terminate⟩
      else if fl.mode ≠ "update" then
        ⟨(setUp fl w).events, .exit 1⟩
      else
        let r := updateRun w
        match r.result with
        | .ok code => ⟨(setUp fl w).events ++ r.events, .exit code⟩
        | .error .exception => ⟨(setUp fl w).events ++ r.events, .exit 1⟩
        | .error .divideByZero => ⟨(setUp fl w).events ++ r.events, .undefinedBehaviour⟩

/-- The cache upserts among a list of events, in order. -/
def upserts : List Event → List (String × Statements)
  | [] => []
  | .redisAdd key stmts :: es => (key, stmts) :: upserts es
  | _ :: es => upserts es

/-! ## Batches and runs -/

/-- The subject of a run of statements: the subject of its first statement. -/
def runSubject : List Statement → String
  | [] => ""
  | s :: _ => s.qid

/-- The maximal contiguous runs of statements of equal subject, in stream
order. -/
def runs (rows : List Statement) : List (List Statement) :=
  rows.splitBy (fun a b => a.qid == b.qid)

/-- The batch a run is written as in the scope `dataset`. -/
def batchOf (dataset : String) (run : List Statement) : String × Statements :=
  (createCacheKey (runSubject run) UNAPPROVED dataset, run)

/-- A stream whose subjects are non-decreasing, in the lexicographic order of
their characters. -/
def SubjectSorted (rows : List Statement) : Prop :=
  rows.Pairwise (fun a b => a.qid.data ≤ b.qid.data)

instance (rows : List Statement) : Decidable (SubjectSorted rows) :=
  inferInstanceAs
    (Decidable (rows.Pairwise (fun (a b : Statement) => a.qid.data ≤ b.qid.data)))

/-- The events that open the processing of a dataset (lines 110-114). -/
def scopeHead (dataset : String) : List Event :=
  [.countStatements UNAPPROVED dataset, .progressUpdate 0, .getAllStatements UNAPPROVED dataset]

/-! ## Properties of a computation -/

/-- A computation stops at its first exception: when `exception s` is among the
events, the computation ended with an exception, and `exception s` is its last
event and its only exception event. -/
def Exec.Halts {α : Type} (x : Exec α) : Prop :=
  ∀ s, Event.exception s ∈ x.events →
    x.result = .error .exception ∧
      ∃ pre, x.events = pre ++ [Event.exception s] ∧ ∀ t, Event.exception t ∉ pre

/-- Every event of a computation satisfies `P`. -/
def Exec.All {α : Type} (P : Event → Prop) (x : Exec α) : Prop :=
  ∀ e ∈ x.events, P e

/-- The events issued inside the loop over the datasets. -/
def Event.inLoop : Event → Bool
  | .countStatements _ _ => true
  | .progressUpdate _ => true
  | .getAllStatements _ _ => true
  | .redisAdd _ _ => true
  | .exception .count => true
  | .exception .stream => true
  | .exception .upsert => true
  | _ => false

/-! ## Example worlds -/

/-- The events that open the guarded block (lines 88-96). -/
def txHead : List Event := [.newSession, .sqlBegin, .newPersistence, .getDatasets]

/-- A world in which every call returns: the reader lists the datasets `ds`,
reports the total `size d` and streams `rows d` for the scope `d`. -/
def World.quiet (ds : List String) (size : String → Int) (rows : String → List Statement) :
    World where
  readConfig := fun _ => true
  newRedisCacheService := true
  redisClear := true
  newSession := true
  sqlBegin := true
  newPersistence := true
  getDatasets := some ds
  countStatements := fun _ d => some (size d)
  getAllStatements := fun _ d => (rows d, false)
  redisAdd := fun _ _ => true
  sqlCommit := true

/-- The stream of the example of the specification. -/
def exampleRows : List Statement := [⟨"Q1", "A"⟩, ⟨"Q1", "B"⟩, ⟨"Q2", "C"⟩]

/-- A sorted stream that starts with a statement of empty subject. -/
def emptySubjectRows : List Statement := [⟨"", "A"⟩, ⟨"Q1", "B"⟩]

/-- A world whose cache refuses every upsert. -/
def upsertFailsWorld : World :=
  { World.quiet [] (fun _ => 200) (fun _ => exampleRows) with redisAdd := fun _ _ => false }

/-- A world whose cache refuses to be cleared. -/
def clearFailsWorld : World :=
  { World.quiet [] (fun _ => 0) (fun _ => []) with redisClear := false }

/-! ## Decimal numerals -/

/-- The decimal digits of a natural number, most significant first: one digit
for a number below ten, otherwise the digits of the quotient by ten followed by
the digit of the remainder. -/
def decimalDigits (n : Nat) : List Char :=
  if n < 10 then [Nat.digitChar n] else decimalDigits (n / 10) ++ [Nat.digitChar (n % 10)]
termination_by n
decreasing_by omega

/-- The decimal numeral of a natural number. -/
def decimal (n : Nat) : String := String.mk (decimalDigits n)

/-! ## The cache -/

/-- Modelled from the spec: `RedisCacheService` is not part of the sources at
hand. The cache maps a key to the batch stored under it. -/
abbrev Cache := String → Option Statements

/-- A completed write to the cache. -/
inductive CacheOp where
  | put (key : String) (stmts : Statements)
  | clear
  deriving DecidableEq

/-- Modelled from the spec: "`upsert(key, batch)` — atomic per-key overwrite;
`clear()` — atomically empties the entire cache namespace". -/
def CacheOp.apply : CacheOp → Cache → Cache
  | .put key stmts, c => fun k => if k = key then some stmts else c k
  | .clear, _ => fun _ => none

/-- The cache after a list of writes, applied in order. -/
def applyOps : List CacheOp → Cache → Cache
  | [], c => c
  | op :: ops, c => applyOps ops (op.apply c)

/-- The writes a list of events makes to the cache: the calls of `Add` and
`Clear` that returned; a call that raised leaves the cache as it was. -/
def cacheOps : List Event → List CacheOp
  | [] => []
  | .redisAdd _ _ :: .exception .upsert :: es => cacheOps es
  | .redisClear :: .exception .clear :: es => cacheOps es
  | .redisAdd key stmts :: es => .put key stmts :: cacheOps es
  | .redisClear :: es => .clear :: cacheOps es
  | _ :: es => cacheOps es

/-- The cache a run leaves when it starts from the cache `c`. -/
def cacheAfter (r : Run) (c : Cache) : Cache := applyOps (cacheOps r.events) c

/-- What a write does to the entry of `k`: `some v` when it sets the entry to
`v`, `none` when it leaves the entry alone. -/
def CacheOp.effect (k : String) : CacheOp → Option (Option Statements)
  | .put key stmts => if k = key then some (some stmts) else none
  | .clear => some none

/-- What a list of writes does to the entry of `k`: the effect of the last
write that touches it. -/
def lastEffect (k : String) : List CacheOp → Option (Option Statements)
  | [] => none
  | op :: ops =>
    match lastEffect k ops with
    | some v => some v
    | none => op.effect k

/-! ## Example streams -/

/-- A stream of two statements of two subjects. -/
def twoSubjectRows : List Statement := [⟨"Q1", "A"⟩, ⟨"Q2", "B"⟩]

/-- A stream of three statements of one subject. -/
def oneSubjectRows : List Statement := [⟨"Q1", "A"⟩, ⟨"Q1", "B"⟩, ⟨"Q1", "C"⟩]

/-- A stream in which the subject `Q1` comes back after `Q2`. -/
def unsortedRows : List Statement := [⟨"Q1", "A"⟩, ⟨"Q2", "B"⟩, ⟨"Q1", "C"⟩]

/-- The scope list `["", "wikidata", "freebase"]` with the totals `[0, 5, 0]`:
five statements of one subject in "wikidata", none elsewhere. -/
def totalsExampleWorld : World :=
  World.quiet ["wikidata", "freebase"] (fun d => if d = "wikidata" then 5 else 0)
    (fun d => if d = "wikidata" then List.replicate 5 ⟨"Q1", "A"⟩ else [])

/-! ## Progress updates -/

/-- Every progress update in `es` comes right after an upsert, carries the
value `base` plus the number of upserts of `es` up to it, and that value is a
multiple of `step`, which is not zero. -/
def PeriodicUpdates (step base : Int) (es : List Event) : Prop :=
  ∀ pre v post, es = pre ++ .progressUpdate v :: post →
    (∃ pre' key stmts, pre = pre' ++ [.redisAdd key stmts]) ∧
      v = base + (upserts pre).length ∧ step ≠ 0 ∧ v.tmod step = 0

/-! ## Keys of the upserts -/

/-- The upsert events whose key is the key of a non-empty subject in the scope
`dataset`; the other events satisfy the predicate as well. -/
def KeyOfSubject (dataset : String) (e : Event) : Prop :=
  ∀ key stmts, e = .redisAdd key stmts →
    ∃ q, q ≠ "" ∧ key = createCacheKey q UNAPPROVED dataset

/-! ## The counter of closed batches -/

/-- The number of batches a stream closes by a change of subject when `qid` is
the current subject on entry: a statement closes a batch when its subject
differs from the current one and the current one is not the empty marker. -/
def closedBatches (qid : String) : List Statement → Nat
  | [] => 0
  | s :: rest => (if qid ≠ s.qid ∧ qid ≠ "" then 1 else 0) + closedBatches s.qid rest

/-- The batches closed by a change of subject in the streams of the scopes
`ds`, all scopes together. -/
def closedBatchesOf (w : World) (ds : List String) : Nat :=
  (ds.map (fun d => closedBatches "" (w.getAllStatements UNAPPROVED d).1)).sum

/-- A stream of `n` statements of `n` subjects, `Q0`, `Q1`, ... -/
def distinctRows (n : Nat) : List Statement :=
  (List.range n).map (fun i => ⟨"Q" ++ Nat.repr i, "x"⟩)

/-- A world with 102 statements of 102 subjects in the scope "" and 100
statements of two subjects in the dataset "w"; the totals are the lengths of the
streams. -/
def counterWorld : World :=
  World.quiet ["w"] (fun d => if d = "w" then 100 else 102)
    (fun d => if d = "w" then List.replicate 99 ⟨"Q1", "x"⟩ ++ [⟨"Q2", "y"⟩]
      else distinctRows 102)

/-! ## Calls to the reader and batches -/

/-- The calls to the reader for a scope among a list of events: the counts and
the streams, in order. -/
def scopeCalls : List Event → List Event
  | [] => []
  | .countStatements state dataset :: es => .countStatements state dataset :: scopeCalls es
  | .getAllStatements state dataset :: es => .getAllStatements state dataset :: scopeCalls es
  | _ :: es => scopeCalls es

/-- The events that are neither a count nor a stream call. -/
def Event.notScopeCall : Event → Bool
  | .countStatements _ _ => false
  | .getAllStatements _ _ => false
  | _ => true

/-- The upsert events that carry a batch with at least one statement; the other
events satisfy the predicate as well. -/
def NonEmptyBatch (e : Event) : Prop :=
  ∀ key stmts, e = .redisAdd key stmts → stmts ≠ []

/-- One count call and one stream call, filtered by `UNAPPROVED`, for each scope
of a list, in order. -/
def callsOfScopes : List String → List Event
  | [] => []
  | d :: ds => .countStatements UNAPPROVED d :: .getAllStatements UNAPPROVED d :: callsOfScopes ds

/-- A stream of 100 statements: 99 of the subject `Q1`, then one of `Q2`. -/
def hundredRows : List Statement := List.replicate 99 ⟨"Q1", "x"⟩ ++ [⟨"Q2", "y"⟩]

/-- A stream of 100 statements that starts with 98 statements of empty subject,
goes on with one of `Q1` and ends with one of empty subject. -/
def trailingEmptyRows : List Statement :=
  List.replicate 98 ⟨"", "A"⟩ ++ [⟨"Q1", "B"⟩, ⟨"", "C"⟩]

/-! ## Two runs over the same reader contents -/

/-- Two worlds whose readers hold the same contents: the same dataset list, the
same totals and the same streams. The other collaborators may behave
differently. -/
def SameReader (w₁ w₂ : World) : Prop :=
  w₁.getDatasets = w₂.getDatasets ∧ w₁.countStatements = w₂.countStatements ∧
    w₁.getAllStatements = w₂.getAllStatements

/-- The world of the second run in the example of two runs: the reader of
`counterWorld`, with a cache that would refuse `Clear()`. -/
def counterWorldAgain : World := { counterWorld with redisClear := false }

/-! # Theorems -/

/-! ## Sequencing lemmas -/

theorem Exec.bind_eq {α β : Type} (x : Exec α) (f : α → Exec β) : x >>= f = Exec.bind x f := rfl

theorem Exec.pure_eq {α : Type} (a : α) : (pure a : Exec α) = ⟨[], .ok a⟩ := rfl

theorem Exec.bind_ok {α β : Type} (x : Exec α) (f : α → Exec β) (a : α)
    (h : x.result = .ok a) :
    Exec.bind x f = ⟨x.events ++ (f a).events, (f a).result⟩ := by
  simp [Exec.bind, h]

theorem Exec.bind_error {α β : Type} (x : Exec α) (f : α → Exec β) (e : Abort)
    (h : x.result = .error e) :
    Exec.bind x f = ⟨x.events, .error e⟩ := by
  simp [Exec.bind, h]

/-- The callback of lines 114-127 without the sequencing operators. -/
theorem callback_eq (w : World) (dataset : String) (size : Int) (c : Captured) (s : Statement) :
    callback w dataset size c s =
      if c.qid ≠ s.qid ∧ c.qid ≠ "" then
        if w.redisAdd (createCacheKey c.qid UNAPPROVED dataset) c.stmts = true then
          if size.tdiv 100 = 0 then
            ⟨[.redisAdd (createCacheKey c.qid UNAPPROVED dataset) c.stmts], .error .divideByZero⟩
          else if (c.count + 1).tmod (size.tdiv 100) = 0 then
            ⟨[.redisAdd (createCacheKey c.qid UNAPPROVED dataset) c.stmts,
              .progressUpdate (c.count + 1)], .ok ⟨[s], s.qid, c.count + 1⟩⟩
          else
            ⟨[.redisAdd (createCacheKey c.qid UNAPPROVED dataset) c.stmts],
              .ok ⟨[s], s.qid, c.count + 1⟩⟩
        else
          ⟨[.redisAdd (createCacheKey c.qid UNAPPROVED dataset) c.stmts, .exception .upsert],
            .error .exception⟩
      else
        ⟨[], .ok ⟨c.stmts ++ [s], s.qid, c.count⟩⟩ := by
  unfold callback
  split_ifs <;>
    simp_all [Exec.bind_eq, Exec.pure_eq, Exec.bind, Exec.call, Exec.rem, Exec.emit]

/-! ## One upsert per run (C1) -/

theorem upserts_append (xs ys : List Event) : upserts (xs ++ ys) = upserts xs ++ upserts ys := by
  induction xs with
  | nil => rfl
  | cons e es ih => cases e <;> simp [upserts, ih]

theorem runSubject_reverse_cons (ag : Statement) (g : List Statement)
    (h : ∀ s ∈ g, s.qid = ag.qid) : runSubject (ag :: g).reverse = ag.qid := by
  cases hg : (ag :: g).reverse with
  | nil => simp at hg
  | cons x xs =>
    have hx : x ∈ (ag :: g).reverse := by rw [hg]; exact List.mem_cons_self _ _
    rcases List.mem_cons.1 (List.mem_reverse.1 hx) with rfl | hx
    · rfl
    · exact h x hx

theorem runSubject_reverse_append (ag : Statement) (g : List Statement)
    (h : ∀ s ∈ g, s.qid = ag.qid) : runSubject (g.reverse ++ [ag]) = ag.qid := by
  simpa using runSubject_reverse_cons ag g h

theorem deliver_cons (w : World) (dataset : String) (size : Int) (c : Captured) (s : Statement)
    (rest : List Statement) :
    deliver w dataset size c (s :: rest) =
      Exec.bind (callback w dataset size c s) (fun c => deliver w dataset size c rest) := rfl

/-- The loop of the callback against the loop of `List.splitBy`: with a step
different from zero, upserts that return and non-empty subjects, the batches
written so far, those written while the rest of the stream is delivered and the
batch left in `stmts` are the runs of the stream. -/
theorem deliver_splitBy_loop (w : World) (dataset : String) (size : Int)
    (hstep : size.tdiv 100 ≠ 0) (hadd : ∀ k v, w.redisAdd k v = true) :
    ∀ (rows : List Statement) (ag : Statement) (g : List Statement)
      (gs : List (List Statement)) (cnt : Int),
      (∀ s ∈ rows, s.qid ≠ "") → ag.qid ≠ "" → (∀ s ∈ g, s.qid = ag.qid) →
      ∃ c, (deliver w dataset size ⟨(ag :: g).reverse, ag.qid, cnt⟩ rows).result = .ok c ∧
        c.stmts ≠ [] ∧
        gs.reverse.map (batchOf dataset) ++
          upserts (deliver w dataset size ⟨(ag :: g).reverse, ag.qid, cnt⟩ rows).events ++
          [(createCacheKey c.qid UNAPPROVED dataset, c.stmts)] =
        (List.splitBy.loop (fun a b => a.qid == b.qid) rows ag g gs).map (batchOf dataset) := by
  intro rows
  induction rows with
  | nil =>
    intro ag g gs cnt _ _ hg
    refine ⟨⟨(ag :: g).reverse, ag.qid, cnt⟩, rfl, by simp, ?_⟩
    simp [deliver, Exec.pure_eq, upserts, List.splitBy.loop, batchOf,
      runSubject_reverse_append ag g hg]
  | cons a rest ih =>
    intro ag g gs cnt hrows hag hg
    have ha : a.qid ≠ "" := hrows a (List.mem_cons_self _ _)
    have hrest : ∀ s ∈ rest, s.qid ≠ "" := fun s hs => hrows s (List.mem_cons_of_mem _ hs)
    by_cases hq : ag.qid = a.qid
    · have hg2 : ∀ s ∈ ag :: g, s.qid = a.qid := by
        intro s hs
        rcases List.mem_cons.1 hs with rfl | hs
        · exact hq
        · rw [hg s hs, hq]
      obtain ⟨c, hc, hne, heq⟩ := ih a (ag :: g) gs cnt hrest ha hg2
      have hcb : callback w dataset size ⟨(ag :: g).reverse, ag.qid, cnt⟩ a =
          ⟨[], .ok ⟨(a :: ag :: g).reverse, a.qid, cnt⟩⟩ := by
        rw [callback_eq]; simp [hq]
      rw [deliver_cons, Exec.bind_ok _ _ _ (by rw [hcb]), hcb]
      refine ⟨c, hc, hne, ?_⟩
      simpa [List.splitBy.loop, hq] using heq
    · obtain ⟨c, hc, hne, heq⟩ :=
        ih a [] ((ag :: g).reverse :: gs) (cnt + 1) hrest ha (by simp)
      have hcb : (callback w dataset size ⟨(ag :: g).reverse, ag.qid, cnt⟩ a).result =
          .ok ⟨[a], a.qid, cnt + 1⟩ ∧
          upserts (callback w dataset size ⟨(ag :: g).reverse, ag.qid, cnt⟩ a).events =
            [(createCacheKey ag.qid UNAPPROVED dataset, (ag :: g).reverse)] := by
        rw [callback_eq]
        simp only [hadd, hq, hag, hstep]
        split_ifs <;> simp_all [upserts]
      rw [deliver_cons, Exec.bind_ok _ _ _ hcb.1]
      refine ⟨c, hc, hne, ?_⟩
      simp only [upserts_append, hcb.2]
      have hb : (ag.qid == a.qid) = false := by simpa using hq
      simp only [List.splitBy.loop, hb]
      simpa [batchOf, runSubject_reverse_append ag g hg] using heq

/-- The body of the loop over the datasets without the sequencing operators. -/
theorem processDataset_eq (w : World) (count : Int) (dataset : String) :
    processDataset w count dataset =
      match w.countStatements UNAPPROVED dataset with
      | none => ⟨[.countStatements UNAPPROVED dataset, .exception .count], .error .exception⟩
      | some size =>
        match (deliver w dataset size ⟨[], "", count⟩
            (w.getAllStatements UNAPPROVED dataset).1).result with
        | .error e =>
          ⟨scopeHead dataset ++ (deliver w dataset size ⟨[], "", count⟩
            (w.getAllStatements UNAPPROVED dataset).1).events, .error e⟩
        | .ok c =>
          if (w.getAllStatements UNAPPROVED dataset).2 = true then
            ⟨scopeHead dataset ++ (deliver w dataset size ⟨[], "", count⟩
              (w.getAllStatements UNAPPROVED dataset).1).events ++ [.exception .stream],
              .error .exception⟩
          else if c.stmts.length > 0 then
            if w.redisAdd (createCacheKey c.qid UNAPPROVED dataset) c.stmts = true then
              ⟨scopeHead dataset ++ (deliver w dataset size ⟨[], "", count⟩
                (w.getAllStatements UNAPPROVED dataset).1).events ++
                [.redisAdd (createCacheKey c.qid UNAPPROVED dataset) c.stmts,
                  .progressUpdate size], .ok c.count⟩
            else
              ⟨scopeHead dataset ++ (deliver w dataset size ⟨[], "", count⟩
                (w.getAllStatements UNAPPROVED dataset).1).events ++
                [.redisAdd (createCacheKey c.qid UNAPPROVED dataset) c.stmts,
                  .exception .upsert], .error .exception⟩
          else
            ⟨scopeHead dataset ++ (deliver w dataset size ⟨[], "", count⟩
              (w.getAllStatements UNAPPROVED dataset).1).events ++ [.progressUpdate size],
              .ok c.count⟩ := by
  unfold processDataset getAllStatements
  cases hsize : w.countStatements UNAPPROVED dataset with
  | none => simp [Exec.bind_eq, Exec.bind, Exec.callGet]
  | some size =>
    cases hd : (deliver w dataset size ⟨[], "", count⟩
        (w.getAllStatements UNAPPROVED dataset).1).result with
    | error e =>
      simp [Exec.bind_eq, Exec.bind, Exec.callGet, Exec.emit, hd, scopeHead]
    | ok c =>
      simp only [Exec.bind_eq, Exec.pure_eq, Exec.bind, Exec.callGet, Exec.emit, hd, scopeHead]
      split_ifs <;> simp_all [Exec.raise, Exec.call, Exec.bind_eq, Exec.pure_eq, Exec.bind]

/-- The stream delivered from the initial state of a dataset (`stmts` empty,
`qid == ""`): it runs to its end, and the batches written on the way followed
by the batch left in `stmts` are the runs of the stream. -/
theorem deliver_initial (w : World) (dataset : String) (size : Int)
    (hstep : size.tdiv 100 ≠ 0) (hadd : ∀ k v, w.redisAdd k v = true)
    (a : Statement) (rest : List Statement) (cnt : Int)
    (hne : ∀ s ∈ a :: rest, s.qid ≠ "") :
    ∃ c, (deliver w dataset size ⟨[], "", cnt⟩ (a :: rest)).result = .ok c ∧
      c.stmts ≠ [] ∧
      upserts (deliver w dataset size ⟨[], "", cnt⟩ (a :: rest)).events ++
        [(createCacheKey c.qid UNAPPROVED dataset, c.stmts)] =
      (runs (a :: rest)).map (batchOf dataset) := by
  have ha : a.qid ≠ "" := hne a (List.mem_cons_self _ _)
  have hrest : ∀ s ∈ rest, s.qid ≠ "" := fun s hs => hne s (List.mem_cons_of_mem _ hs)
  obtain ⟨c, hc, hnil, heq⟩ :=
    deliver_splitBy_loop w dataset size hstep hadd rest a [] [] cnt hrest ha (by simp)
  have hcb : callback w dataset size ⟨[], "", cnt⟩ a = ⟨[], .ok ⟨[a].reverse, a.qid, cnt⟩⟩ := by
    rw [callback_eq]; simp
  rw [deliver_cons, Exec.bind_ok _ _ _ (by rw [hcb]), hcb]
  refine ⟨c, hc, hnil, ?_⟩
  simpa [runs, List.splitBy] using heq

/-- C1 (amended). For a dataset whose reported total gives a step different
from zero, a stream that returns, upserts that return, and a subject-sorted
stream without empty subject, the processing of the dataset runs to its end and
its upserts are, in stream order, one per maximal contiguous run of equal
subject: the statements of the run in their order, under the key
`createCacheKey (subject of the run) UNAPPROVED dataset`. The order of the
subjects is the hypothesis of the claim; the proof does not need it. -/
theorem processDataset_upserts_eq_runs (w : World) (count : Int) (dataset : String)
    (size : Int) (rows : List Statement)
    (hsize : w.countStatements UNAPPROVED dataset = some size)
    (hstep : size.tdiv 100 ≠ 0)
    (hrows : w.getAllStatements UNAPPROVED dataset = (rows, false))
    (hadd : ∀ k v, w.redisAdd k v = true)
    (_hsorted : SubjectSorted rows)
    (hne : ∀ s ∈ rows, s.qid ≠ "") :
    (∃ n, (processDataset w count dataset).result = .ok n) ∧
      upserts (processDataset w count dataset).events = (runs rows).map (batchOf dataset) := by
  rw [processDataset_eq, hsize]
  simp only [hrows]
  cases rows with
  | nil =>
    simp [deliver, Exec.pure_eq, upserts_append, upserts, scopeHead, runs]
  | cons a rest =>
    obtain ⟨c, hc, hnil, heq⟩ := deliver_initial w dataset size hstep hadd a rest count hne
    have hlen : c.stmts.length > 0 := List.length_pos.2 hnil
    simp only [hc, hlen, hadd, if_true, Bool.false_eq_true, if_false]
    refine ⟨⟨c.count, rfl⟩, ?_⟩
    rw [← heq]
    simp [upserts_append, upserts, scopeHead]

/-! ## A computation stops at its first exception -/

theorem Exec.no_exception_of_ok {α : Type} {x : Exec α} (h : x.Halts) {a : α}
    (ha : x.result = .ok a) (t : Step) : Event.exception t ∉ x.events := by
  intro ht
  have := (h t ht).1
  rw [ha] at this
  cases this

theorem Exec.no_exception_of_divide {α : Type} {x : Exec α} (h : x.Halts)
    (ha : x.result = .error .divideByZero) (t : Step) : Event.exception t ∉ x.events := by
  intro ht
  have := (h t ht).1
  rw [ha] at this
  cases this

theorem Exec.halts_bind {α β : Type} {x : Exec α} {f : α → Exec β} (hx : x.Halts)
    (hf : ∀ a, (f a).Halts) : (Exec.bind x f).Halts := by
  intro s hs
  cases hr : x.result with
  | error e =>
    rw [Exec.bind_error x f e hr] at hs ⊢
    obtain ⟨h1, h2⟩ := hx s hs
    refine ⟨?_, h2⟩
    have he : e = Abort.exception := by
      rw [hr] at h1
      exact Except.error.inj h1
    rw [he]
  | ok a =>
    rw [Exec.bind_ok x f a hr] at hs ⊢
    have hx0 := Exec.no_exception_of_ok hx hr
    rcases List.mem_append.1 hs with h | h
    · exact absurd h (hx0 s)
    · obtain ⟨h1, pre, h2, h3⟩ := hf a s h
      refine ⟨h1, x.events ++ pre, ?_, ?_⟩
      · show x.events ++ (f a).events = _
        rw [h2, List.append_assoc]
      · intro t ht
        rcases List.mem_append.1 ht with h | h
        · exact hx0 t h
        · exact h3 t h

theorem Exec.all_bind {α β : Type} {P : Event → Prop} {x : Exec α} {f : α → Exec β}
    (hx : x.All P) (hf : ∀ a, (f a).All P) : (Exec.bind x f).All P := by
  intro e he
  cases hr : x.result with
  | error err =>
    rw [Exec.bind_error x f err hr] at he
    exact hx e he
  | ok a =>
    rw [Exec.bind_ok x f a hr] at he
    rcases List.mem_append.1 he with h | h
    · exact hx e h
    · exact hf a e h

theorem Exec.halts_pure {α : Type} (a : α) : (pure a : Exec α).Halts := by
  intro s hs; simp [Exec.pure_eq] at hs

theorem Exec.halts_emit (e : Event) (he : ∀ s, e ≠ .exception s) : (Exec.emit e).Halts := by
  intro s hs
  simp only [Exec.emit, List.mem_singleton] at hs
  exact absurd hs.symm (he s)

theorem Exec.halts_call (e : Event) (s : Step) (ok : Bool) (he : ∀ s, e ≠ .exception s) :
    (Exec.call e s ok).Halts := by
  intro t ht
  cases ok with
  | true =>
    simp only [Exec.call, if_true, List.mem_singleton] at ht
    exact absurd ht.symm (he t)
  | false =>
    simp only [Exec.call, Bool.false_eq_true, if_false, List.mem_cons, List.mem_singleton,
      List.not_mem_nil, or_false] at ht
    rcases ht with ht | ht
    · exact absurd ht.symm (he t)
    · cases ht
      refine ⟨by simp [Exec.call], [e], by simp [Exec.call], ?_⟩
      intro u hu
      simp only [List.mem_singleton] at hu
      exact he u hu.symm

theorem Exec.halts_callGet {α : Type} (e : Event) (s : Step) (r : Option α)
    (he : ∀ s, e ≠ .exception s) : (Exec.callGet e s r).Halts := by
  intro t ht
  cases r with
  | some a =>
    simp only [Exec.callGet, List.mem_singleton] at ht
    exact absurd ht.symm (he t)
  | none =>
    simp only [Exec.callGet, List.mem_cons, List.mem_singleton, List.not_mem_nil,
      or_false] at ht
    rcases ht with ht | ht
    · exact absurd ht.symm (he t)
    · cases ht
      refine ⟨rfl, [e], rfl, ?_⟩
      intro u hu
      simp only [List.mem_singleton] at hu
      exact he u hu.symm

theorem Exec.halts_raise {α : Type} (s : Step) : (Exec.raise s : Exec α).Halts := by
  intro t ht
  simp only [Exec.raise, List.mem_singleton] at ht
  cases ht
  exact ⟨rfl, [], rfl, by simp⟩

theorem Exec.halts_rem (a b : Int) : (Exec.rem a b).Halts := by
  intro t ht
  unfold Exec.rem at ht
  split_ifs at ht <;> simp at ht

theorem Exec.all_pure {α : Type} (P : Event → Prop) (a : α) : (pure a : Exec α).All P := by
  intro e he; simp [Exec.pure_eq] at he

theorem Exec.all_emit (P : Event → Prop) (e : Event) (he : P e) : (Exec.emit e).All P := by
  intro e' he'
  simp only [Exec.emit, List.mem_singleton] at he'
  rw [he']; exact he

theorem Exec.all_call (P : Event → Prop) (e : Event) (s : Step) (ok : Bool) (he : P e)
    (hs : P (.exception s)) : (Exec.call e s ok).All P := by
  intro e' he'
  cases ok <;> simp [Exec.call] at he'
  · rcases he' with rfl | rfl <;> assumption
  · rw [he']; exact he

theorem Exec.all_callGet {α : Type} (P : Event → Prop) (e : Event) (s : Step) (r : Option α)
    (he : P e) (hs : P (.exception s)) : (Exec.callGet e s r).All P := by
  intro e' he'
  cases r <;> simp [Exec.callGet] at he'
  · rcases he' with rfl | rfl <;> assumption
  · rw [he']; exact he

theorem Exec.all_raise {α : Type} (P : Event → Prop) (s : Step) (hs : P (.exception s)) :
    (Exec.raise s : Exec α).All P := by
  intro e' he'
  simp only [Exec.raise, List.mem_singleton] at he'
  rw [he']; exact hs

theorem Exec.all_rem (P : Event → Prop) (a b : Int) : (Exec.rem a b).All P := by
  intro e he
  unfold Exec.rem at he
  split_ifs at he <;> simp at he

theorem callback_halts (w : World) (dataset : String) (size : Int) (c : Captured)
    (s : Statement) : (callback w dataset size c s).Halts := by
  unfold callback
  simp only [Exec.bind_eq]
  repeat' first
    | exact Exec.halts_pure _
    | exact Exec.halts_rem _ _
    | exact Exec.halts_raise _
    | exact Exec.halts_emit _ (by intro s h; cases h)
    | exact Exec.halts_call _ _ _ (by intro s h; cases h)
    | exact Exec.halts_callGet _ _ _ (by intro s h; cases h)
    | refine Exec.halts_bind ?_ (fun _ => ?_)
    | split

theorem callback_inLoop (w : World) (dataset : String) (size : Int) (c : Captured)
    (s : Statement) : (callback w dataset size c s).All (fun e => e.inLoop = true) := by
  unfold callback
  simp only [Exec.bind_eq]
  repeat' first
    | exact Exec.all_pure _ _
    | exact Exec.all_rem _ _ _
    | exact Exec.all_raise _ _ rfl
    | exact Exec.all_emit _ _ rfl
    | exact Exec.all_call _ _ _ _ rfl rfl
    | exact Exec.all_callGet _ _ _ _ rfl rfl
    | refine Exec.all_bind ?_ (fun _ => ?_)
    | split

theorem deliver_halts (w : World) (dataset : String) (size : Int) :
    ∀ (rows : List Statement) (c : Captured), (deliver w dataset size c rows).Halts := by
  intro rows
  induction rows with
  | nil => intro c; exact Exec.halts_pure _
  | cons s rest ih =>
    intro c
    rw [deliver_cons]
    exact Exec.halts_bind (callback_halts w dataset size c s) (fun c => ih c)

theorem deliver_inLoop (w : World) (dataset : String) (size : Int) :
    ∀ (rows : List Statement) (c : Captured),
      (deliver w dataset size c rows).All (fun e => e.inLoop = true) := by
  intro rows
  induction rows with
  | nil => intro c; exact Exec.all_pure _ _
  | cons s rest ih =>
    intro c
    rw [deliver_cons]
    exact Exec.all_bind (callback_inLoop w dataset size c s) (fun c => ih c)

theorem processDataset_halts (w : World) (count : Int) (dataset : String) :
    (processDataset w count dataset).Halts := by
  unfold processDataset getAllStatements
  simp only [Exec.bind_eq]
  repeat' first
    | exact Exec.halts_pure _
    | exact Exec.halts_rem _ _
    | exact Exec.halts_raise _
    | exact Exec.halts_emit _ (by intro s h; cases h)
    | exact Exec.halts_call _ _ _ (by intro s h; cases h)
    | exact Exec.halts_callGet _ _ _ (by intro s h; cases h)
    | exact deliver_halts _ _ _ _ _
    | refine Exec.halts_bind ?_ (fun _ => ?_)
    | split

theorem processDataset_inLoop (w : World) (count : Int) (dataset : String) :
    (processDataset w count dataset).All (fun e => e.inLoop = true) := by
  unfold processDataset getAllStatements
  simp only [Exec.bind_eq]
  repeat' first
    | exact Exec.all_pure _ _
    | exact Exec.all_rem _ _ _
    | exact Exec.all_raise _ _ rfl
    | exact Exec.all_emit _ _ rfl
    | exact Exec.all_call _ _ _ _ rfl rfl
    | exact Exec.all_callGet _ _ _ _ rfl rfl
    | exact deliver_inLoop _ _ _ _ _
    | refine Exec.all_bind ?_ (fun _ => ?_)
    | split

theorem forDatasets_cons (w : World) (count : Int) (dataset : String) (rest : List String) :
    forDatasets w count (dataset :: rest) =
      Exec.bind (processDataset w count dataset) (fun count => forDatasets w count rest) := rfl

theorem forDatasets_halts (w : World) :
    ∀ (ds : List String) (count : Int), (forDatasets w count ds).Halts := by
  intro ds
  induction ds with
  | nil => intro count; exact Exec.halts_pure _
  | cons d rest ih =>
    intro count
    rw [forDatasets_cons]
    exact Exec.halts_bind (processDataset_halts w count d) (fun c => ih c)

theorem forDatasets_inLoop (w : World) :
    ∀ (ds : List String) (count : Int),
      (forDatasets w count ds).All (fun e => e.inLoop = true) := by
  intro ds
  induction ds with
  | nil => intro count; exact Exec.all_pure _ _
  | cons d rest ih =>
    intro count
    rw [forDatasets_cons]
    exact Exec.all_bind (processDataset_inLoop w count d) (fun c => ih c)

/-! ## The guarded block -/

/-- The body of the `try` block without the sequencing operators. -/
theorem updateRun_eq (w : World) :
    updateRun w =
      if w.newSession = true then
        if w.sqlBegin = true then
          if w.newPersistence = true then
            match w.getDatasets with
            | none => ⟨txHead ++ [.exception .datasets], .error .exception⟩
            | some ds =>
              match (forDatasets w 0 ("" :: ds)).result with
              | .error e => ⟨txHead ++ (forDatasets w 0 ("" :: ds)).events, .error e⟩
              | .ok _ =>
                if w.sqlCommit = true then
                  ⟨txHead ++ (forDatasets w 0 ("" :: ds)).events ++ [.sqlCommit], .ok 0⟩
                else
                  ⟨txHead ++ (forDatasets w 0 ("" :: ds)).events ++
                    [.sqlCommit, .exception .commit], .error .exception⟩
          else
            ⟨[.newSession, .sqlBegin, .newPersistence, .exception .persistence],
              .error .exception⟩
        else
          ⟨[.newSession, .sqlBegin, .exception .begin], .error .exception⟩
      else
        ⟨[.newSession, .exception .connect], .error .exception⟩ := by
  unfold updateRun
  cases h1 : w.newSession <;> cases h2 : w.sqlBegin <;> cases h3 : w.newPersistence <;>
    simp [Exec.bind_eq, Exec.bind, Exec.call]
  cases h4 : w.getDatasets with
  | none => simp [Exec.callGet, txHead]
  | some ds =>
    cases h5 : (forDatasets w 0 ("" :: ds)).result with
    | error e => simp [Exec.callGet, txHead, h5]
    | ok n => cases h6 : w.sqlCommit <;> simp [Exec.callGet, txHead, h5, Exec.pure_eq]

/-- Lines 69-74 without the sequencing operators. -/
theorem setUp_eq (fl : Flags) (w : World) :
    setUp fl w =
      if w.readConfig fl.c = true then
        if w.newRedisCacheService = true then
          ⟨[.readConfig fl.c, .newRedisCacheService], .ok ()⟩
        else
          ⟨[.readConfig fl.c, .newRedisCacheService, .exception .cacheClient],
            .error .exception⟩
      else
        ⟨[.readConfig fl.c, .exception .config], .error .exception⟩ := by
  unfold setUp
  cases h1 : w.readConfig fl.c <;> cases h2 : w.newRedisCacheService <;>
    simp [Exec.bind_eq, Exec.bind, Exec.call]

theorem updateRun_halts (w : World) : (updateRun w).Halts := by
  unfold updateRun
  simp only [Exec.bind_eq]
  repeat' first
    | exact Exec.halts_pure _
    | exact Exec.halts_call _ _ _ (by intro s h; cases h)
    | exact Exec.halts_callGet _ _ _ (by intro s h; cases h)
    | exact forDatasets_halts _ _ _
    | refine Exec.halts_bind ?_ (fun _ => ?_)

theorem Exec.all_mono {α : Type} {P Q : Event → Prop} {x : Exec α} (h : x.All P)
    (hPQ : ∀ e, P e → Q e) : x.All Q :=
  fun e he => hPQ e (h e he)

theorem updateRun_no_rollback (w : World) : (updateRun w).All (fun e => e ≠ .sqlRollback) := by
  unfold updateRun
  simp only [Exec.bind_eq]
  repeat' first
    | exact Exec.all_pure _ _
    | exact Exec.all_call _ _ _ _ (by intro h; cases h) (by intro h; cases h)
    | exact Exec.all_callGet _ _ _ _ (by intro h; cases h) (by intro h; cases h)
    | exact Exec.all_mono (forDatasets_inLoop _ _ _) (by intro e he h; rw [h] at he; cases he)
    | refine Exec.all_bind ?_ (fun _ => ?_)

/-- When a step of the guarded block other than the commit raises, no commit
was issued. -/
theorem updateRun_no_commit (w : World) (s : Step) (hs : s ≠ .commit)
    (h : Event.exception s ∈ (updateRun w).events) : Event.sqlCommit ∉ (updateRun w).events := by
  have hloop : ∀ ds, Event.sqlCommit ∉ (forDatasets w 0 ds).events := by
    intro ds hmem
    have := forDatasets_inLoop w ds 0 _ hmem
    cases this
  rw [updateRun_eq] at h ⊢
  by_cases h1 : w.newSession = true
  · by_cases h2 : w.sqlBegin = true
    · by_cases h3 : w.newPersistence = true
      · simp only [h1, h2, h3, if_true] at h ⊢
        cases h4 : w.getDatasets with
        | none => simp [txHead]
        | some ds =>
          simp only [h4] at h ⊢
          cases h5 : (forDatasets w 0 ("" :: ds)).result with
          | error e =>
            simp only [h5]
            simpa [txHead] using hloop _
          | ok n =>
            exfalso
            have h0 := Exec.no_exception_of_ok (forDatasets_halts w ("" :: ds) 0) h5
            simp only [h5] at h
            by_cases h6 : w.sqlCommit = true
            · simp [h6, txHead, h0] at h
            · simp [h6, txHead, h0, hs] at h
      · simp [h1, h2, h3]
    · simp [h1, h2]
  · simp [h1]

/-! ## Runs of `main` (C1, C5, C7-C10) -/

/-- C1, witness: the example of the specification, for a reported total of 100. -/
theorem processDataset_upserts_eq_runs_witness :
    (∃ n, (processDataset (World.quiet [] (fun _ => 100) (fun _ => exampleRows)) 0 "").result
      = .ok n) ∧
    upserts (processDataset (World.quiet [] (fun _ => 100) (fun _ => exampleRows)) 0 "").events
      = [("Q1-0", [⟨"Q1", "A"⟩, ⟨"Q1", "B"⟩]), ("Q2-0", [⟨"Q2", "C"⟩])] :=
  processDataset_upserts_eq_runs (World.quiet [] (fun _ => 100) (fun _ => exampleRows)) 0 ""
    100 exampleRows rfl (by decide) rfl (fun _ _ => rfl) (by decide) (by decide)

/-- C1, counterexample: the stream `[("", A), ("Q1", B)]` is subject-sorted and has
two maximal runs, `[A]` of subject `""` and `[B]` of subject `"Q1"`; every call
returns, and the loop issues the single upsert `("Q1-0", [A, B])`. -/
theorem processDataset_empty_subject_counterexample :
    SubjectSorted emptySubjectRows ∧
    (runs emptySubjectRows).map (batchOf "") =
      [("-0", [⟨"", "A"⟩]), ("Q1-0", [⟨"Q1", "B"⟩])] ∧
    (processDataset (World.quiet [] (fun _ => 2) (fun _ => emptySubjectRows)) 0 "").result
      = .ok 0 ∧
    upserts (processDataset (World.quiet [] (fun _ => 2) (fun _ => emptySubjectRows)) 0 "").events
      = [("Q1-0", [⟨"", "A"⟩, ⟨"Q1", "B"⟩])] ∧
    upserts (processDataset (World.quiet [] (fun _ => 2) (fun _ => emptySubjectRows)) 0 "").events
      ≠ (runs emptySubjectRows).map (batchOf "") := by
  decide

/-- C5, the failing input: the example of the specification with its total, 3.
After the first upsert the remainder `1 % (3 / 100)` is taken with divisor zero;
the second upsert and the final progress update are never reached. -/
theorem processDataset_small_total_divides_by_zero :
    processDataset (World.quiet [] (fun _ => 3) (fun _ => exampleRows)) 0 "" =
      ⟨[.countStatements UNAPPROVED "", .progressUpdate 0, .getAllStatements UNAPPROVED "",
        .redisAdd "Q1-0" [⟨"Q1", "A"⟩, ⟨"Q1", "B"⟩]], .error .divideByZero⟩ ∧
    (main ⟨"conf.json", "update"⟩
      (World.quiet [] (fun _ => 3) (fun _ => exampleRows))).outcome = .undefinedBehaviour := by
  decide

/-- C7. In clear mode, on an invocation with its configuration path and when
the configuration, the construction of the cache client and `Clear()` return,
the run is: read the configuration, construct the cache client, call `Clear()`
once, exit with code 0. There is no upsert, no transaction and no call to the
reader. -/
theorem main_clear (fl : Flags) (w : World) (hm : fl.mode = "clear") (hc : fl.c ≠ "")
    (hcfg : w.readConfig fl.c = true) (hredis : w.newRedisCacheService = true)
    (hclear : w.redisClear = true) :
    main fl w = ⟨[.readConfig fl.c, .newRedisCacheService, .redisClear], .exit 0⟩ := by
  unfold main
  rw [setUp_eq]
  simp [hm, hc, hcfg, hredis, hclear, Exec.call]

/-- C7, witness. -/
theorem main_clear_witness :
    main ⟨"conf.json", "clear"⟩ (World.quiet [] (fun _ => 0) (fun _ => [])) =
      ⟨[.readConfig "conf.json", .newRedisCacheService, .redisClear], .exit 0⟩ :=
  main_clear ⟨"conf.json", "clear"⟩ (World.quiet [] (fun _ => 0) (fun _ => [])) rfl
    (by decide) rfl rfl rfl

/-- C8 (amended). With a mode that is neither "update" nor "clear", and when
the configuration and the construction of the cache client return, the run
exits with code 1; with a configuration path its events are the reading of the
configuration and the construction of the cache client, which come before the
test of the mode, and nothing else: no store connection, no cache operation, no
persistence operation. -/
theorem main_unknown_mode (fl : Flags) (w : World) (hu : fl.mode ≠ "update")
    (hcl : fl.mode ≠ "clear")
    (hset : fl.c ≠ "" → w.readConfig fl.c = true ∧ w.newRedisCacheService = true) :
    main fl w =
      ⟨if fl.c = "" then [] else [.readConfig fl.c, .newRedisCacheService], .exit 1⟩ := by
  unfold main
  rw [setUp_eq]
  by_cases hc : fl.c = ""
  · simp [hc]
  · simp [hc, hu, hcl, (hset hc).1, (hset hc).2]

/-- C8, witness. -/
theorem main_unknown_mode_witness :
    main ⟨"conf.json", "refresh"⟩ (World.quiet [] (fun _ => 0) (fun _ => [])) =
      ⟨[.readConfig "conf.json", .newRedisCacheService], .exit 1⟩ :=
  main_unknown_mode ⟨"conf.json", "refresh"⟩ (World.quiet [] (fun _ => 0) (fun _ => []))
    (by decide) (by decide) (fun _ => ⟨rfl, rfl⟩)

/-- C8, counterexample: the mode "refresh" is rejected with exit code 1 after
the cache client has been constructed. -/
theorem main_unknown_mode_counterexample :
    (main ⟨"conf.json", "refresh"⟩ (World.quiet [] (fun _ => 0) (fun _ => []))).outcome
      = .exit 1 ∧
    Event.newRedisCacheService ∈
      (main ⟨"conf.json", "refresh"⟩ (World.quiet [] (fun _ => 0) (fun _ => []))).events := by
  decide

/-- C9 (amended). When the dataset listing, a count, a stream or an upsert
raises an exception, that exception is the last event of the run (no further
cache write, no further scope), it is the only one, no commit and no rollback
is issued, and the run exits with code 1. Such an exception is raised in update
mode only. -/
theorem main_update_failure (fl : Flags) (w : World) (s : Step)
    (hs : s = .datasets ∨ s = .count ∨ s = .stream ∨ s = .upsert)
    (hfail : Event.exception s ∈ (main fl w).events) :
    (main fl w).outcome = .exit 1 ∧
    (∃ pre, (main fl w).events = pre ++ [Event.exception s] ∧ ∀ t, Event.exception t ∉ pre) ∧
    Event.sqlCommit ∉ (main fl w).events ∧
    Event.sqlRollback ∉ (main fl w).events := by
  have hs1 : s ≠ .config := by rcases hs with h | h | h | h <;> rw [h] <;> decide
  have hs2 : s ≠ .cacheClient := by rcases hs with h | h | h | h <;> rw [h] <;> decide
  have hs3 : s ≠ .clear := by rcases hs with h | h | h | h <;> rw [h] <;> decide
  have hs4 : s ≠ .commit := by rcases hs with h | h | h | h <;> rw [h] <;> decide
  unfold main at hfail ⊢
  rw [setUp_eq] at hfail ⊢
  by_cases hc : fl.c = ""
  · simp [hc] at hfail
  by_cases hcfg : w.readConfig fl.c = true
  swap
  · simp [hc, hcfg, hs1] at hfail
  by_cases hredis : w.newRedisCacheService = true
  swap
  · simp [hc, hcfg, hredis, hs2] at hfail
  by_cases hcl : fl.mode = "clear"
  · cases hclear : w.redisClear <;> simp [hc, hcfg, hredis, hcl, hclear, Exec.call, hs3] at hfail
  by_cases hu : fl.mode = "update"
  swap
  · simp [hc, hcfg, hredis, hcl, hu] at hfail
  simp only [hc, hcfg, hredis, hcl, hu, if_true, if_false, ne_eq, not_true_eq_false] at hfail ⊢
  have hin : Event.exception s ∈ (updateRun w).events := by
    cases hr : (updateRun w).result with
    | ok n => simpa [hr] using hfail
    | error e => cases e <;> simpa [hr] using hfail
  obtain ⟨hres, pre, hpre, hquiet⟩ := updateRun_halts w s hin
  have hcommit := updateRun_no_commit w s hs4 hin
  have hroll : Event.sqlRollback ∉ (updateRun w).events :=
    fun h => updateRun_no_rollback w _ h rfl
  simp only [hres]
  refine ⟨rfl, ⟨[.readConfig fl.c, .newRedisCacheService] ++ pre, ?_, ?_⟩, ?_, ?_⟩
  · simp [hpre]
  · intro t ht
    simp only [List.cons_append, List.nil_append, List.mem_cons] at ht
    rcases ht with ht | ht | ht
    · cases ht
    · cases ht
    · exact hquiet t ht
  · simp [hcommit]
  · simp [hroll]

/-- C9, witness: the first upsert of the example stream raises. -/
theorem main_update_failure_witness :
    Event.exception .upsert ∈ (main ⟨"conf.json", "update"⟩ upsertFailsWorld).events ∧
    (main ⟨"conf.json", "update"⟩ upsertFailsWorld).outcome = .exit 1 ∧
    (∃ pre, (main ⟨"conf.json", "update"⟩ upsertFailsWorld).events
        = pre ++ [Event.exception .upsert] ∧ ∀ t, Event.exception t ∉ pre) ∧
    Event.sqlCommit ∉ (main ⟨"conf.json", "update"⟩ upsertFailsWorld).events ∧
    Event.sqlRollback ∉ (main ⟨"conf.json", "update"⟩ upsertFailsWorld).events :=
  ⟨by decide, main_update_failure ⟨"conf.json", "update"⟩ upsertFailsWorld .upsert
    (Or.inr (Or.inr (Or.inr rfl))) (by decide)⟩

/-- C9, counterexample: an upsert raises inside the open transaction; the run
exits with code 1 and its events, listed here in full, hold no rollback. -/
theorem main_update_failure_no_rollback_counterexample :
    main ⟨"conf.json", "update"⟩ upsertFailsWorld =
      ⟨[.readConfig "conf.json", .newRedisCacheService, .newSession, .sqlBegin,
        .newPersistence, .getDatasets, .countStatements UNAPPROVED "", .progressUpdate 0,
        .getAllStatements UNAPPROVED "", .redisAdd "Q1-0" [⟨"Q1", "A"⟩, ⟨"Q1", "B"⟩],
        .exception .upsert], .exit 1⟩ ∧
    Event.sqlBegin ∈ (main ⟨"conf.json", "update"⟩ upsertFailsWorld).events ∧
    Event.sqlRollback ∉ (main ⟨"conf.json", "update"⟩ upsertFailsWorld).events := by
  decide

/-- C10, the failing input: in clear mode `Clear()` raises; the exception is
not caught and leaves `main`, so the process ends in `std::terminate` and not
with exit code 1. -/
theorem main_clear_failure_escapes :
    main ⟨"conf.json", "clear"⟩ clearFailsWorld =
      ⟨[.readConfig "conf.json", .newRedisCacheService, .redisClear, .exception .clear],
        .terminate⟩ ∧
    (main ⟨"conf.json", "clear"⟩ clearFailsWorld).outcome ≠ .exit 1 := by
  decide

/-! ## The cache key (C2-C4) -/

theorem decimalDigits_eq (n : Nat) :
    decimalDigits n =
      if n < 10 then [Nat.digitChar n] else decimalDigits (n / 10) ++ [Nat.digitChar (n % 10)] := by
  rw [decimalDigits]

theorem toDigitsCore_eq_decimalDigits :
    ∀ (fuel n : Nat) (ds : List Char), n < fuel →
      Nat.toDigitsCore 10 fuel n ds = decimalDigits n ++ ds := by
  intro fuel
  induction fuel with
  | zero => intro n ds h; omega
  | succ fuel ih =>
    intro n ds h
    rw [decimalDigits]
    by_cases hn : n < 10
    · have h0 : n / 10 = 0 := Nat.div_eq_of_lt hn
      have h1 : n % 10 = n := Nat.mod_eq_of_lt hn
      simp [Nat.toDigitsCore, h0, h1, hn]
    · have h0 : n / 10 ≠ 0 := by omega
      have h2 : n / 10 < fuel := by omega
      simp [Nat.toDigitsCore, h0, hn, ih (n / 10) _ h2]

theorem to_string_eq_decimal (n : Nat) : to_string n = decimal n := by
  simp [to_string, decimal, Nat.repr, Nat.toDigits, List.asString,
    toDigitsCore_eq_decimalDigits (n + 1) n [] (Nat.lt_succ_self n)]

theorem digitChar_ne_dash : ∀ k, k < 10 → Nat.digitChar k ≠ '-' := by decide

theorem digitChar_inj : ∀ a, a < 10 → ∀ b, b < 10 → Nat.digitChar a = Nat.digitChar b → a = b := by
  decide

theorem decimalDigits_ne_nil (n : Nat) : decimalDigits n ≠ [] := by
  rw [decimalDigits]
  split <;> simp

theorem dash_not_mem_decimalDigits : ∀ n : Nat, '-' ∉ decimalDigits n := by
  intro n
  induction n using Nat.strong_induction_on with
  | _ n ih =>
    rw [decimalDigits]
    by_cases hn : n < 10
    · simp only [hn, if_true, List.mem_singleton]
      exact fun h => digitChar_ne_dash n hn h.symm
    · simp only [hn, if_false, List.mem_append, List.mem_singleton, not_or]
      exact ⟨ih (n / 10) (by omega), fun h => digitChar_ne_dash (n % 10) (by omega) h.symm⟩

theorem decimalDigits_injective : ∀ a b : Nat, decimalDigits a = decimalDigits b → a = b := by
  intro a
  induction a using Nat.strong_induction_on with
  | _ a ih =>
    intro b h
    rw [decimalDigits_eq a, decimalDigits_eq b] at h
    by_cases ha : a < 10 <;> by_cases hb : b < 10
    · simp only [ha, hb, if_true, List.cons.injEq, and_true] at h
      exact digitChar_inj a ha b hb h
    · simp only [ha, hb, if_true, if_false] at h
      have := congrArg List.length h
      have hpos := List.length_pos.2 (decimalDigits_ne_nil (b / 10))
      simp only [List.length_append, List.length_singleton, List.length_cons,
        List.length_nil] at this
      omega
    · simp only [ha, hb, if_true, if_false] at h
      have := congrArg List.length h
      have hpos := List.length_pos.2 (decimalDigits_ne_nil (a / 10))
      simp only [List.length_append, List.length_singleton, List.length_cons,
        List.length_nil] at this
      omega
    · simp only [ha, hb, if_false] at h
      obtain ⟨h1, h2⟩ := List.append_inj' h rfl
      have hq : a / 10 = b / 10 := ih (a / 10) (by omega) (b / 10) h1
      have hr : a % 10 = b % 10 :=
        digitChar_inj _ (by omega) _ (by omega) (by simpa using h2)
      omega

/-- Two lists cut at the first occurrence of `x` are equal part by part. -/
theorem append_cons_cancel {x : Char} :
    ∀ (a c b d : List Char), x ∉ a → x ∉ c → a ++ x :: b = c ++ x :: d → a = c ∧ b = d := by
  intro a
  induction a with
  | nil =>
    intro c b d _ hc h
    cases c with
    | nil => simpa using h
    | cons y ys =>
      simp only [List.nil_append, List.cons_append, List.cons.injEq] at h
      exact absurd (h.1 ▸ List.mem_cons_self _ _) hc
  | cons y ys ih =>
    intro c b d ha hc h
    cases c with
    | nil =>
      simp only [List.nil_append, List.cons_append, List.cons.injEq] at h
      exact absurd (h.1 ▸ List.mem_cons_self _ _) ha
    | cons z zs =>
      simp only [List.cons_append, List.cons.injEq] at h
      obtain ⟨h1, h2⟩ := ih zs b d (fun hm => ha (List.mem_cons_of_mem _ hm))
        (fun hm => hc (List.mem_cons_of_mem _ hm)) h.2
      exact ⟨by rw [h.1, h1], h2⟩

theorem createCacheKey_data (qid : String) (state : ApprovalState) (dataset : String) :
    (createCacheKey qid state dataset).data =
      if dataset = "" then qid.data ++ '-' :: decimalDigits state
      else qid.data ++ '-' :: (dataset.data ++ '-' :: decimalDigits state) := by
  unfold createCacheKey
  split_ifs <;> simp [to_string_eq_decimal, decimal]

/-- C2. `createCacheKey` returns the subject, "-" and the decimal numeral of
the state when the dataset is empty, and the subject, "-", the dataset, "-" and
the decimal numeral of the state otherwise. -/
theorem createCacheKey_eq (qid : String) (state : ApprovalState) (dataset : String) :
    createCacheKey qid state dataset =
      if dataset = "" then qid ++ "-" ++ decimal state
      else qid ++ "-" ++ dataset ++ "-" ++ decimal state := by
  unfold createCacheKey
  split_ifs <;> simp [to_string_eq_decimal]

/-- C3. On subjects and datasets without the character '-', `createCacheKey`
is injective: equal keys come from equal subjects, equal datasets and equal
states, whether the datasets are empty or not. -/
theorem createCacheKey_injective (q₁ q₂ d₁ d₂ : String) (s₁ s₂ : ApprovalState)
    (hq₁ : '-' ∉ q₁.data) (hq₂ : '-' ∉ q₂.data) (hd₁ : '-' ∉ d₁.data) (hd₂ : '-' ∉ d₂.data)
    (h : createCacheKey q₁ s₁ d₁ = createCacheKey q₂ s₂ d₂) :
    q₁ = q₂ ∧ d₁ = d₂ ∧ s₁ = s₂ := by
  have hdata := congrArg String.data h
  rw [createCacheKey_data, createCacheKey_data] at hdata
  by_cases e₁ : d₁ = "" <;> by_cases e₂ : d₂ = ""
  · simp only [e₁, e₂, if_true] at hdata
    obtain ⟨h1, h2⟩ := append_cons_cancel _ _ _ _ hq₁ hq₂ hdata
    exact ⟨String.ext h1, by rw [e₁, e₂], decimalDigits_injective _ _ h2⟩
  · simp only [e₁, e₂, if_true, if_false] at hdata
    obtain ⟨_, h2⟩ := append_cons_cancel _ _ _ _ hq₁ hq₂ hdata
    exact absurd (h2 ▸ (List.mem_append_right _ (List.mem_cons_self _ _)))
      (dash_not_mem_decimalDigits s₁)
  · simp only [e₁, e₂, if_true, if_false] at hdata
    obtain ⟨_, h2⟩ := append_cons_cancel _ _ _ _ hq₁ hq₂ hdata
    exact absurd (h2.symm ▸ (List.mem_append_right _ (List.mem_cons_self _ _)))
      (dash_not_mem_decimalDigits s₂)
  · simp only [e₁, e₂, if_false] at hdata
    obtain ⟨h1, h2⟩ := append_cons_cancel _ _ _ _ hq₁ hq₂ hdata
    obtain ⟨h3, h4⟩ := append_cons_cancel _ _ _ _ hd₁ hd₂ h2
    exact ⟨String.ext h1, String.ext h3, decimalDigits_injective _ _ h4⟩

/-- C3, witness. -/
theorem createCacheKey_injective_witness :
    '-' ∉ "Q1".data ∧ '-' ∉ "wikidata".data ∧
    createCacheKey "Q1" 0 "wikidata" = createCacheKey "Q1" 0 "wikidata" ∧
    ("Q1" = "Q1" ∧ "wikidata" = "wikidata" ∧ (0 : ApprovalState) = 0) :=
  ⟨by decide, by decide, rfl,
    createCacheKey_injective "Q1" "Q1" "wikidata" "wikidata" 0 0 (by decide) (by decide)
      (by decide) (by decide) rfl⟩

/-- C4. The delimiter is not escaped: the subject "Q1-x" with the empty dataset
and the subject "Q1" with the dataset "x", in the same state, are two different
triples with the same key, "Q1-x-0". -/
theorem createCacheKey_collision :
    ∃ (q₁ d₁ q₂ d₂ : String) (s₁ s₂ : ApprovalState),
      (q₁, d₁, s₁) ≠ (q₂, d₂, s₂) ∧
      ('-' ∈ q₁.data ∨ '-' ∈ d₁.data ∨ '-' ∈ q₂.data ∨ '-' ∈ d₂.data) ∧
      createCacheKey q₁ s₁ d₁ = createCacheKey q₂ s₂ d₂ :=
  ⟨"Q1-x", "", "Q1", "x", UNAPPROVED, UNAPPROVED, by decide, by decide, by decide⟩

/-! ## Overwrites are idempotent -/

theorem CacheOp.apply_eq (op : CacheOp) (c : Cache) (k : String) :
    op.apply c k = (op.effect k).getD (c k) := by
  cases op with
  | put key stmts => by_cases h : k = key <;> simp [CacheOp.apply, CacheOp.effect, h]
  | clear => simp [CacheOp.apply, CacheOp.effect]

theorem applyOps_eq : ∀ (ops : List CacheOp) (c : Cache) (k : String),
    applyOps ops c k = (lastEffect k ops).getD (c k) := by
  intro ops
  induction ops with
  | nil => intro c k; rfl
  | cons op ops ih =>
    intro c k
    rw [applyOps, ih, CacheOp.apply_eq, lastEffect]
    cases lastEffect k ops <;> simp

theorem applyOps_idempotent (ops : List CacheOp) (c : Cache) :
    applyOps ops (applyOps ops c) = applyOps ops c := by
  funext k
  rw [applyOps_eq ops (applyOps ops c), applyOps_eq ops c]
  cases lastEffect k ops <;> simp

/-! ## Evaluations at small totals (C12, C14, C15, C17) -/

/-- C12, the failing input: the reader lists the dataset "wikidata"; the scope
"" has the total 2 and the stream `[(Q1, A), (Q2, B)]`. The remainder by zero
of line 121 ends the run inside the scope "": there is no count call and no
stream call for "wikidata". -/
theorem main_small_total_skips_datasets :
    main ⟨"conf.json", "update"⟩ (World.quiet ["wikidata"] (fun _ => 2) (fun _ => twoSubjectRows)) =
      ⟨[.readConfig "conf.json", .newRedisCacheService, .newSession, .sqlBegin,
        .newPersistence, .getDatasets, .countStatements UNAPPROVED "", .progressUpdate 0,
        .getAllStatements UNAPPROVED "", .redisAdd "Q1-0" [⟨"Q1", "A"⟩]],
        .undefinedBehaviour⟩ ∧
    Event.countStatements UNAPPROVED "wikidata" ∉
      (main ⟨"conf.json", "update"⟩
        (World.quiet ["wikidata"] (fun _ => 2) (fun _ => twoSubjectRows))).events ∧
    Event.getAllStatements UNAPPROVED "wikidata" ∉
      (main ⟨"conf.json", "update"⟩
        (World.quiet ["wikidata"] (fun _ => 2) (fun _ => twoSubjectRows))).events := by
  decide

/-- C14, the failing input: for the empty dataset the key of `Q1` in state 0 is
"Q1-0"; the dataset name "all" announced by the comment of lines 32-35 would
give "Q1-all-0". -/
theorem createCacheKey_empty_dataset_not_all :
    createCacheKey "Q1" UNAPPROVED "" = "Q1-0" ∧
    createCacheKey "Q1" UNAPPROVED "all" = "Q1-all-0" ∧
    createCacheKey "Q1" UNAPPROVED "" ≠ createCacheKey "Q1" UNAPPROVED "all" := by
  decide

/-- C15, the failing input: the stream `[(Q1, A), (Q2, B), (Q1, C)]` with its
total, 3. The remainder by zero of line 121 ends the loop after the upsert of
the first run of `Q1`: the second run of `Q1` is never written, and the entry of
"Q1-0" holds the first run, `[A]`, not the last one, `[C]`. -/
theorem processDataset_small_total_keeps_first_run :
    processDataset (World.quiet [] (fun _ => 3) (fun _ => unsortedRows)) 0 "" =
      ⟨[.countStatements UNAPPROVED "", .progressUpdate 0, .getAllStatements UNAPPROVED "",
        .redisAdd "Q1-0" [⟨"Q1", "A"⟩]], .error .divideByZero⟩ ∧
    applyOps (cacheOps
      (processDataset (World.quiet [] (fun _ => 3) (fun _ => unsortedRows)) 0 "").events)
      (fun _ => none) "Q1-0" = some [⟨"Q1", "A"⟩] := by
  decide

/-- C17, the failing input: the stream `[(Q1, A), (Q2, B)]` with its total, 2.
The remainder by zero of line 121 ends the loop after the upsert of `[A]`: the
statement `B` is in no batch. -/
theorem processDataset_small_total_drops_statement :
    processDataset (World.quiet [] (fun _ => 2) (fun _ => twoSubjectRows)) 0 "" =
      ⟨[.countStatements UNAPPROVED "", .progressUpdate 0, .getAllStatements UNAPPROVED "",
        .redisAdd "Q1-0" [⟨"Q1", "A"⟩]], .error .divideByZero⟩ ∧
    ((upserts (processDataset (World.quiet [] (fun _ => 2)
      (fun _ => twoSubjectRows)) 0 "").events).map Prod.snd).flatten = [⟨"Q1", "A"⟩] ∧
    ((upserts (processDataset (World.quiet [] (fun _ => 2)
      (fun _ => twoSubjectRows)) 0 "").events).map Prod.snd).flatten ≠ twoSubjectRows := by
  decide

/-! ## Scopes without statements (C16) -/

/-- C16. For a scope whose total is 0 and whose stream delivers no statement,
the processing of the scope is: the count, the start update with value 0, the
stream, the completion update with value 0. There is no upsert, and the
remainder of line 121, whose divisor `0 / 100` is zero here, is not evaluated:
the processing runs to its end and leaves the counter as it was. -/
theorem processDataset_empty_scope (w : World) (count : Int) (dataset : String)
    (hsize : w.countStatements UNAPPROVED dataset = some 0)
    (hrows : w.getAllStatements UNAPPROVED dataset = ([], false)) :
    processDataset w count dataset =
      ⟨[.countStatements UNAPPROVED dataset, .progressUpdate 0,
        .getAllStatements UNAPPROVED dataset, .progressUpdate 0], .ok count⟩ := by
  rw [processDataset_eq, hsize]
  simp [hrows, deliver, Exec.pure_eq, scopeHead]

/-- C16, witness: the scope "freebase" of the scope list `["", "wikidata",
"freebase"]` with the totals `[0, 5, 0]`. -/
theorem processDataset_empty_scope_witness :
    processDataset totalsExampleWorld 0 "freebase" =
      ⟨[.countStatements UNAPPROVED "freebase", .progressUpdate 0,
        .getAllStatements UNAPPROVED "freebase", .progressUpdate 0], .ok 0⟩ :=
  processDataset_empty_scope totalsExampleWorld 0 "freebase" rfl rfl

/-! ## The transaction of a successful update run (C11) -/

/-- When the guarded block runs to its end, every call before the loop
returned, the loop over `"" :: ds` ran to its end, and the commit returned. -/
theorem updateRun_ok (w : World) (n : Int) (hok : (updateRun w).result = .ok n) :
    n = 0 ∧ ∃ ds, w.getDatasets = some ds ∧
      (∃ m, (forDatasets w 0 ("" :: ds)).result = .ok m) ∧
      (updateRun w).events = txHead ++ (forDatasets w 0 ("" :: ds)).events ++ [.sqlCommit] := by
  rw [updateRun_eq] at hok ⊢
  by_cases h1 : w.newSession = true
  swap
  · simp [h1] at hok
  by_cases h2 : w.sqlBegin = true
  swap
  · simp [h1, h2] at hok
  by_cases h3 : w.newPersistence = true
  swap
  · simp [h1, h2, h3] at hok
  simp only [h1, h2, h3, if_true] at hok ⊢
  cases h4 : w.getDatasets with
  | none => simp [h4] at hok
  | some ds =>
    simp only [h4] at hok ⊢
    cases h5 : (forDatasets w 0 ("" :: ds)).result with
    | error e => simp [h5] at hok
    | ok m =>
      simp only [h5] at hok ⊢
      by_cases h6 : w.sqlCommit = true
      · simp only [h6, if_true] at hok ⊢
        refine ⟨?_, ds, rfl, ⟨m, h5⟩, rfl⟩
        have := Except.ok.inj hok
        exact this.symm
      · simp [h6] at hok

/-- C11. In an update run in which nothing fails (the configuration is read,
the cache client is constructed and the guarded block runs to its end), the
events are: the set-up, the connection, one `begin`, the construction of
`Persistence` and the dataset listing, then the events of the loop over the
scopes (counts, streams, upserts and progress updates only, none of them an
exception), then one `commit`; `begin` and `commit` occur once each, and the
run exits with code 0. -/
theorem main_successful_update (fl : Flags) (w : World) (n : Int)
    (hm : fl.mode = "update") (hc : fl.c ≠ "")
    (hcfg : w.readConfig fl.c = true) (hredis : w.newRedisCacheService = true)
    (hok : (updateRun w).result = .ok n) :
    ∃ ds, w.getDatasets = some ds ∧
      (main fl w).events =
        [.readConfig fl.c, .newRedisCacheService, .newSession, .sqlBegin, .newPersistence,
          .getDatasets] ++ (forDatasets w 0 ("" :: ds)).events ++ [.sqlCommit] ∧
      (∀ e ∈ (forDatasets w 0 ("" :: ds)).events, e.inLoop = true ∧ ∀ s, e ≠ .exception s) ∧
      (main fl w).events.count .sqlBegin = 1 ∧
      (main fl w).events.count .sqlCommit = 1 ∧
      (main fl w).outcome = .exit 0 := by
  obtain ⟨hn, ds, hds, ⟨m, hm'⟩, hev⟩ := updateRun_ok w n hok
  have hloop : ∀ e ∈ (forDatasets w 0 ("" :: ds)).events,
      e.inLoop = true ∧ ∀ s, e ≠ .exception s := by
    intro e he
    refine ⟨forDatasets_inLoop w _ 0 e he, ?_⟩
    intro s hs
    rw [hs] at he
    exact Exec.no_exception_of_ok (forDatasets_halts w _ 0) hm' s he
  have hb : (forDatasets w 0 ("" :: ds)).events.count .sqlBegin = 0 :=
    List.count_eq_zero_of_not_mem (fun he => by have := (hloop _ he).1; cases this)
  have hcm : (forDatasets w 0 ("" :: ds)).events.count .sqlCommit = 0 :=
    List.count_eq_zero_of_not_mem (fun he => by have := (hloop _ he).1; cases this)
  have hmain : main fl w =
      ⟨[.readConfig fl.c, .newRedisCacheService, .newSession, .sqlBegin, .newPersistence,
        .getDatasets] ++ (forDatasets w 0 ("" :: ds)).events ++ [.sqlCommit], .exit 0⟩ := by
    unfold main
    rw [setUp_eq]
    have hcl : fl.mode ≠ "clear" := by rw [hm]; decide
    simp [hc, hcfg, hredis, hcl, hm, hok, hn, hev, txHead]
  refine ⟨ds, hds, by rw [hmain], hloop, ?_, ?_, by rw [hmain]⟩
  · rw [hmain]
    simp [List.count_cons, List.count_append, hb]
  · rw [hmain]
    simp [List.count_cons, List.count_append, hcm]

/-- C11, witness: the example stream in the scopes "" and "wikidata", with the
reported total 100. -/
theorem main_successful_update_witness :
    ∃ ds, (World.quiet ["wikidata"] (fun _ => 100) (fun _ => exampleRows)).getDatasets = some ds ∧
      (main ⟨"conf.json", "update"⟩
          (World.quiet ["wikidata"] (fun _ => 100) (fun _ => exampleRows))).events =
        [.readConfig "conf.json", .newRedisCacheService, .newSession, .sqlBegin,
          .newPersistence, .getDatasets] ++
        (forDatasets (World.quiet ["wikidata"] (fun _ => 100) (fun _ => exampleRows)) 0
          ("" :: ds)).events ++ [.sqlCommit] ∧
      (∀ e ∈ (forDatasets (World.quiet ["wikidata"] (fun _ => 100) (fun _ => exampleRows)) 0
          ("" :: ds)).events, e.inLoop = true ∧ ∀ s, e ≠ .exception s) ∧
      (main ⟨"conf.json", "update"⟩
          (World.quiet ["wikidata"] (fun _ => 100) (fun _ => exampleRows))).events.count
        .sqlBegin = 1 ∧
      (main ⟨"conf.json", "update"⟩
          (World.quiet ["wikidata"] (fun _ => 100) (fun _ => exampleRows))).events.count
        .sqlCommit = 1 ∧
      (main ⟨"conf.json", "update"⟩
          (World.quiet ["wikidata"] (fun _ => 100) (fun _ => exampleRows))).outcome = .exit 0 :=
  main_successful_update ⟨"conf.json", "update"⟩
    (World.quiet ["wikidata"] (fun _ => 100) (fun _ => exampleRows)) 0 rfl (by decide) rfl rfl
    (by decide)

/-! ## Progress while a scope is streamed -/

theorem periodicUpdates_of_no_update (step base : Int) (es : List Event)
    (h : ∀ v, Event.progressUpdate v ∉ es) : PeriodicUpdates step base es := by
  intro pre v post he
  exact absurd (he ▸ List.mem_append_right _ (List.mem_cons_self _ _)) (h v)

theorem periodicUpdates_add (step base : Int) (key : String) (stmts : Statements)
    (es : List Event) (h : PeriodicUpdates step (base + 1) es) :
    PeriodicUpdates step base (.redisAdd key stmts :: es) := by
  intro pre v post he
  cases pre with
  | nil => simp at he
  | cons e pre₂ =>
    simp only [List.cons_append, List.cons.injEq] at he
    obtain ⟨⟨pre', k, b, hpre⟩, hv, hs, hmod⟩ := h pre₂ v post he.2
    refine ⟨⟨e :: pre', k, b, by rw [hpre]; rfl⟩, ?_, hs, hmod⟩
    rw [hv, ← he.1]
    simp only [upserts, List.length_cons]
    push_cast
    ring

theorem periodicUpdates_add_update (step base : Int) (key : String) (stmts : Statements)
    (es : List Event) (hs : step ≠ 0) (hmod : (base + 1).tmod step = 0)
    (h : PeriodicUpdates step (base + 1) es) :
    PeriodicUpdates step base (.redisAdd key stmts :: .progressUpdate (base + 1) :: es) := by
  intro pre v post he
  cases pre with
  | nil => simp at he
  | cons e pre₂ =>
    simp only [List.cons_append, List.cons.injEq] at he
    obtain ⟨he1, he2⟩ := he
    cases pre₂ with
    | nil =>
      simp only [List.nil_append, List.cons.injEq, Event.progressUpdate.injEq] at he2
      refine ⟨⟨[], key, stmts, by rw [← he1]; rfl⟩, ?_, hs, by rw [← he2.1]; exact hmod⟩
      rw [← he2.1, ← he1]
      simp [upserts]
    | cons e' pre₃ =>
      simp only [List.cons_append, List.cons.injEq] at he2
      obtain ⟨⟨pre', k, b, hpre⟩, hv, hs', hmod'⟩ := h pre₃ v post he2.2
      refine ⟨⟨e :: e' :: pre', k, b, by rw [hpre]; rfl⟩, ?_, hs', hmod'⟩
      rw [hv, ← he1, ← he2.1]
      simp only [upserts, List.length_cons]
      push_cast
      ring

/-- The progress updates issued while a stream is delivered. -/
theorem deliver_periodicUpdates (w : World) (dataset : String) (size : Int) :
    ∀ (rows : List Statement) (c : Captured),
      PeriodicUpdates (size.tdiv 100) c.count (deliver w dataset size c rows).events := by
  intro rows
  induction rows with
  | nil =>
    intro c
    exact periodicUpdates_of_no_update _ _ _ (by simp [deliver, Exec.pure_eq])
  | cons s rest ih =>
    intro c
    rw [deliver_cons, callback_eq]
    split_ifs with hclose hadd hstep hmod
    · exact periodicUpdates_of_no_update _ _ _ (by simp [Exec.bind])
    · rw [Exec.bind_ok _ _ _ rfl]
      exact periodicUpdates_add_update _ _ _ _ _ hstep hmod (ih _)
    · rw [Exec.bind_ok _ _ _ rfl]
      exact periodicUpdates_add _ _ _ _ _ (ih _)
    · exact periodicUpdates_of_no_update _ _ _ (by simp [Exec.bind])
    · rw [Exec.bind_ok _ _ _ rfl]
      simpa using ih ⟨c.stmts ++ [s], s.qid, c.count⟩

/-! ## The empty subject as marker (C18) -/

theorem Exec.bind_pure_left {α β : Type} (a : α) (f : α → Exec β) :
    Exec.bind ⟨[], .ok a⟩ f = f a := by
  simp [Exec.bind]

/-- With `qid == ""` the callback closes no batch: it appends the statement and
takes its subject. -/
theorem callback_marker (w : World) (dataset : String) (size : Int) (c : Captured)
    (s : Statement) (hc : c.qid = "") :
    callback w dataset size c s = ⟨[], .ok ⟨c.stmts ++ [s], s.qid, c.count⟩⟩ := by
  rw [callback_eq]; simp [hc]

/-- With the subject of the statement in `qid` the callback closes no batch. -/
theorem callback_same_subject (w : World) (dataset : String) (size : Int) (c : Captured)
    (s : Statement) (hc : c.qid = s.qid) :
    callback w dataset size c s = ⟨[], .ok ⟨c.stmts ++ [s], s.qid, c.count⟩⟩ := by
  rw [callback_eq]; simp [hc]

/-- On a change of subject the first event of the callback is the upsert of the
batch under the key of the subject left. -/
theorem callback_close_upserts (w : World) (dataset : String) (size : Int) (c : Captured)
    (s : Statement) (hne : c.qid ≠ s.qid) (hc : c.qid ≠ "")
    (f : Captured → Exec Captured) :
    ∃ tail, upserts (Exec.bind (callback w dataset size c s) f).events =
      (createCacheKey c.qid UNAPPROVED dataset, c.stmts) :: tail := by
  rw [callback_eq]
  simp only [hne, hc, ne_eq, not_false_eq_true, and_self, if_true]
  split_ifs
  · exact ⟨[], by simp [Exec.bind, upserts]⟩
  · rw [Exec.bind_ok _ _ _ rfl]
    exact ⟨upserts (f ⟨[s], s.qid, c.count + 1⟩).events, by simp [upserts]⟩
  · rw [Exec.bind_ok _ _ _ rfl]
    exact ⟨upserts (f ⟨[s], s.qid, c.count + 1⟩).events, by simp [upserts]⟩
  · exact ⟨[], by simp [Exec.bind, upserts]⟩

theorem deliver_empties (w : World) (dataset : String) (size : Int) :
    ∀ (empties : List Statement) (c : Captured) (rows : List Statement), c.qid = "" →
      (∀ e ∈ empties, e.qid = "") →
      deliver w dataset size c (empties ++ rows) =
        deliver w dataset size ⟨c.stmts ++ empties, "", c.count⟩ rows := by
  intro empties
  induction empties with
  | nil =>
    intro c rows hc _
    cases c
    simp only [List.nil_append, List.append_nil] at hc ⊢
    rw [hc]
  | cons e es ih =>
    intro c rows hc he
    have h1 : e.qid = "" := he e (List.mem_cons_self _ _)
    rw [List.cons_append, deliver_cons, callback_marker w dataset size c e hc,
      Exec.bind_pure_left, ih _ rows h1 (fun x hx => he x (List.mem_cons_of_mem _ hx))]
    simp

/-- From a state with a current subject, either the first upsert of the stream
is the batch of that subject, the statements in `stmts` followed by the
statements of the same subject that come next, or the whole stream is of that
subject and is appended to `stmts` without any event. -/
theorem deliver_first_run (w : World) (dataset : String) (size : Int) :
    ∀ (rest : List Statement) (c : Captured), c.qid ≠ "" →
      (∃ tail, upserts (deliver w dataset size c rest).events =
        (createCacheKey c.qid UNAPPROVED dataset,
          c.stmts ++ rest.takeWhile (fun t => t.qid == c.qid)) :: tail) ∨
      (deliver w dataset size c rest = ⟨[], .ok ⟨c.stmts ++ rest, c.qid, c.count⟩⟩ ∧
        rest.takeWhile (fun t => t.qid == c.qid) = rest) := by
  intro rest
  induction rest with
  | nil =>
    intro c _
    right
    cases c
    simp [deliver, Exec.pure_eq]
  | cons t rest ih =>
    intro c hc
    by_cases ht : c.qid = t.qid
    · have hbeq : (t.qid == c.qid) = true := by simp [ht]
      have hc1 : (⟨c.stmts ++ [t], t.qid, c.count⟩ : Captured).qid ≠ "" := by
        simpa [← ht] using hc
      rw [deliver_cons, callback_same_subject w dataset size c t ht, Exec.bind_pure_left]
      rcases ih ⟨c.stmts ++ [t], t.qid, c.count⟩ hc1 with ⟨tail, h⟩ | ⟨h1, h2⟩
      · left
        refine ⟨tail, ?_⟩
        rw [h]
        simp [List.takeWhile_cons, hbeq, ht]
      · right
        simp only [ht] at h1 h2 ⊢
        refine ⟨by rw [h1]; simp, ?_⟩
        simp [List.takeWhile_cons, h2]
    · left
      have hbeq : (t.qid == c.qid) = false := by
        simp only [beq_eq_false_iff_ne, ne_eq]
        exact fun h => ht h.symm
      obtain ⟨tail, h⟩ := callback_close_upserts w dataset size c t ht hc
        (fun c => deliver w dataset size c rest)
      refine ⟨tail, ?_⟩
      rw [deliver_cons, h]
      simp [List.takeWhile_cons, hbeq]

theorem createCacheKey_subject_inj (q₁ q₂ : String) (state : ApprovalState) (dataset : String)
    (h : createCacheKey q₁ state dataset = createCacheKey q₂ state dataset) : q₁ = q₂ := by
  have hdata := congrArg String.data h
  rw [createCacheKey_data, createCacheKey_data] at hdata
  split_ifs at hdata <;> exact String.ext (List.append_cancel_right hdata)

theorem callback_keyOfSubject (w : World) (dataset : String) (size : Int) (c : Captured)
    (s : Statement) : (callback w dataset size c s).All (KeyOfSubject dataset) := by
  intro e he key stmts hk
  rw [callback_eq] at he
  rw [hk] at he
  split_ifs at he with hclose <;>
    simp only [List.mem_cons, List.mem_singleton, Event.redisAdd.injEq, List.not_mem_nil,
      or_false, reduceCtorEq] at he
  all_goals exact ⟨c.qid, hclose.2, he.1⟩

theorem deliver_keyOfSubject (w : World) (dataset : String) (size : Int) :
    ∀ (rows : List Statement) (c : Captured),
      (deliver w dataset size c rows).All (KeyOfSubject dataset) := by
  intro rows
  induction rows with
  | nil => intro c; exact Exec.all_pure _ _
  | cons s rest ih =>
    intro c
    rw [deliver_cons]
    exact Exec.all_bind (callback_keyOfSubject w dataset size c s) (fun c => ih c)

theorem callback_ok_qid (w : World) (dataset : String) (size : Int) (c c' : Captured)
    (s : Statement) (h : (callback w dataset size c s).result = .ok c') : c'.qid = s.qid := by
  rw [callback_eq] at h
  split_ifs at h <;> simp only [reduceCtorEq, Except.ok.injEq] at h <;> rw [← h]

/-- After a stream that was delivered to its end, `qid` is the subject of the
last statement. -/
theorem deliver_ok_qid (w : World) (dataset : String) (size : Int) :
    ∀ (rows : List Statement) (c c' : Captured),
      (deliver w dataset size c rows).result = .ok c' →
      c'.qid = (rows.getLast?.map (fun t => t.qid)).getD c.qid := by
  intro rows
  induction rows with
  | nil =>
    intro c c' h
    simp only [deliver, Exec.pure_eq, Except.ok.injEq] at h
    simp [h]
  | cons t rest ih =>
    intro c c' h
    rw [deliver_cons] at h
    cases hcb : (callback w dataset size c t).result with
    | error e => rw [Exec.bind_error _ _ e hcb] at h; cases h
    | ok c₁ =>
      rw [Exec.bind_ok _ _ c₁ hcb] at h
      rw [ih c₁ c' h, callback_ok_qid w dataset size c c₁ t hcb, List.getLast?_cons]
      cases rest.getLast? <;> simp

theorem mem_upserts (key : String) (stmts : Statements) :
    ∀ es : List Event, (key, stmts) ∈ upserts es ↔ Event.redisAdd key stmts ∈ es := by
  intro es
  induction es with
  | nil => simp [upserts]
  | cons e es ih => cases e <;> simp [upserts, ih]

/-- The upserts of the processing of a dataset whose count and stream return:
those issued while the stream is delivered, then the final flush when the stream
was delivered to its end and left statements in `stmts`. -/
theorem processDataset_upserts (w : World) (count : Int) (dataset : String) (size : Int)
    (rows : List Statement)
    (hsize : w.countStatements UNAPPROVED dataset = some size)
    (hrows : w.getAllStatements UNAPPROVED dataset = (rows, false)) :
    upserts (processDataset w count dataset).events =
      upserts (deliver w dataset size ⟨[], "", count⟩ rows).events ++
        match (deliver w dataset size ⟨[], "", count⟩ rows).result with
        | .ok c =>
          if c.stmts.length > 0 then [(createCacheKey c.qid UNAPPROVED dataset, c.stmts)]
          else []
        | .error _ => [] := by
  rw [processDataset_eq, hsize]
  simp only [hrows]
  cases hd : (deliver w dataset size ⟨[], "", count⟩ rows).result with
  | error e => simp [upserts_append, scopeHead, upserts]
  | ok c =>
    simp only [Bool.false_eq_true, if_false]
    split_ifs <;> simp [upserts_append, scopeHead, upserts]

/-! ## The counter of closed batches (C19) -/

theorem callback_ok_count (w : World) (dataset : String) (size : Int) (c c' : Captured)
    (s : Statement) (h : (callback w dataset size c s).result = .ok c') :
    c'.count = c.count + (if c.qid ≠ s.qid ∧ c.qid ≠ "" then 1 else 0 : Nat) := by
  rw [callback_eq] at h
  split_ifs at h with hclose <;> simp only [reduceCtorEq, Except.ok.injEq] at h <;>
    rw [← h] <;> simp [hclose]

theorem deliver_ok_count (w : World) (dataset : String) (size : Int) :
    ∀ (rows : List Statement) (c c' : Captured),
      (deliver w dataset size c rows).result = .ok c' →
      c'.count = c.count + closedBatches c.qid rows := by
  intro rows
  induction rows with
  | nil =>
    intro c c' h
    simp only [deliver, Exec.pure_eq, Except.ok.injEq] at h
    simp [← h, closedBatches]
  | cons t rest ih =>
    intro c c' h
    rw [deliver_cons] at h
    cases hcb : (callback w dataset size c t).result with
    | error e => rw [Exec.bind_error _ _ e hcb] at h; cases h
    | ok c₁ =>
      rw [Exec.bind_ok _ _ c₁ hcb] at h
      rw [ih c₁ c' h, callback_ok_count w dataset size c c₁ t hcb,
        callback_ok_qid w dataset size c c₁ t hcb, closedBatches]
      push_cast
      ring

theorem processDataset_ok_count (w : World) (count : Int) (dataset : String) (n : Int)
    (h : (processDataset w count dataset).result = .ok n) :
    n = count + closedBatches "" (w.getAllStatements UNAPPROVED dataset).1 := by
  rw [processDataset_eq] at h
  cases hsize : w.countStatements UNAPPROVED dataset with
  | none => simp [hsize] at h
  | some size =>
    simp only [hsize] at h
    cases hd : (deliver w dataset size ⟨[], "", count⟩
        (w.getAllStatements UNAPPROVED dataset).1).result with
    | error e => simp [hd] at h
    | ok c =>
      have hc := deliver_ok_count w dataset size _ _ c hd
      simp only [hd] at h
      split_ifs at h <;> simp only [reduceCtorEq, Except.ok.injEq] at h <;> rw [← h, hc]

theorem forDatasets_ok_count (w : World) :
    ∀ (ds : List String) (count n : Int), (forDatasets w count ds).result = .ok n →
      n = count + closedBatchesOf w ds := by
  intro ds
  induction ds with
  | nil =>
    intro count n h
    simp only [forDatasets, Exec.pure_eq, Except.ok.injEq] at h
    simp [← h, closedBatchesOf]
  | cons d rest ih =>
    intro count n h
    rw [forDatasets_cons] at h
    cases hp : (processDataset w count d).result with
    | error e => rw [Exec.bind_error _ _ e hp] at h; cases h
    | ok m =>
      rw [Exec.bind_ok _ _ m hp] at h
      have h1 := processDataset_ok_count w count d m hp
      have h2 := ih m n h
      rw [h2, h1]
      simp only [closedBatchesOf, List.map_cons, List.sum_cons]
      push_cast
      ring

set_option maxRecDepth 100000 in
/-- C19. The counter of line 99 counts the batches closed by a change of
subject and is not reset between the scopes: after the scopes `ds` its value is
its value on entry plus the number of batches closed in the streams of all
these scopes, and after any stream delivered to its end it is its value on entry
plus the number of batches closed in that stream (the final flushes are not
counted). In `counterWorld` the scope "" (102 statements, 102 subjects) leaves
the counter at 101, and in the later scope "w", whose total is 100, the periodic
update after the batch of `Q1` carries the value 102. -/
theorem counter_counts_closed_batches :
    (∀ (w : World) (ds : List String) (count n : Int),
      (forDatasets w count ds).result = .ok n → n = count + closedBatchesOf w ds) ∧
    (∀ (w : World) (dataset : String) (size : Int) (rows : List Statement) (c c' : Captured),
      (deliver w dataset size c rows).result = .ok c' →
      c'.count = c.count + closedBatches c.qid rows) ∧
    ((forDatasets counterWorld 0 [""]).result = .ok 101 ∧
      counterWorld.countStatements UNAPPROVED "w" = some 100 ∧
      (processDataset counterWorld 101 "w").events =
        [.countStatements UNAPPROVED "w", .progressUpdate 0, .getAllStatements UNAPPROVED "w",
          .redisAdd "Q1-w-0" (List.replicate 99 ⟨"Q1", "x"⟩), .progressUpdate 102,
          .redisAdd "Q2-w-0" [⟨"Q2", "y"⟩], .progressUpdate 100] ∧
      Event.progressUpdate 102 ∈ (main ⟨"conf.json", "update"⟩ counterWorld).events ∧
      (main ⟨"conf.json", "update"⟩ counterWorld).outcome = .exit 0) :=
  ⟨fun w ds count n h => forDatasets_ok_count w ds count n h,
    fun w dataset size rows c c' h => deliver_ok_count w dataset size rows c c' h,
    by decide⟩

set_option maxRecDepth 100000 in
/-- C19, witness: the two scopes of `counterWorld` close 101 + 1 batches. -/
theorem counter_counts_closed_batches_witness :
    (forDatasets counterWorld 0 ["", "w"]).result = .ok 102 ∧
    (102 : Int) = 0 + closedBatchesOf counterWorld ["", "w"] :=
  ⟨by decide, counter_counts_closed_batches.1 counterWorld ["", "w"] 0 102 (by decide)⟩

/-! ## Runs that reach their end (behind C12 and C17) -/

theorem Exec.all_bind_ok {α β : Type} {P : Event → Prop} {x : Exec α} {f : α → Exec β}
    (hx : x.All P) (hf : ∀ a, x.result = .ok a → (f a).All P) : (Exec.bind x f).All P := by
  intro e he
  cases hr : x.result with
  | error err =>
    rw [Exec.bind_error x f err hr] at he
    exact hx e he
  | ok a =>
    rw [Exec.bind_ok x f a hr] at he
    rcases List.mem_append.1 he with h | h
    · exact hx e h
    · exact hf a hr e h

theorem callback_ok_flatten (w : World) (dataset : String) (size : Int) (c c' : Captured)
    (s : Statement) (h : (callback w dataset size c s).result = .ok c') :
    ((upserts (callback w dataset size c s).events).map Prod.snd).flatten ++ c'.stmts =
      c.stmts ++ [s] ∧ c'.stmts ≠ [] := by
  rw [callback_eq] at h ⊢
  split_ifs at h ⊢ <;> simp only [reduceCtorEq, Except.ok.injEq] at h <;> rw [← h] <;>
    simp [upserts]

/-- After a stream delivered to its end, the batches written on the way followed
by the statements left in `stmts` are the statements in `stmts` on entry
followed by the stream. -/
theorem deliver_ok_flatten (w : World) (dataset : String) (size : Int) :
    ∀ (rows : List Statement) (c c' : Captured),
      (deliver w dataset size c rows).result = .ok c' →
      ((upserts (deliver w dataset size c rows).events).map Prod.snd).flatten ++ c'.stmts =
        c.stmts ++ rows := by
  intro rows
  induction rows with
  | nil =>
    intro c c' h
    simp only [deliver, Exec.pure_eq, Except.ok.injEq] at h
    simp [deliver, Exec.pure_eq, upserts, h]
  | cons t rest ih =>
    intro c c' h
    rw [deliver_cons] at h ⊢
    cases hcb : (callback w dataset size c t).result with
    | error e => rw [Exec.bind_error _ _ e hcb] at h; cases h
    | ok c₁ =>
      rw [Exec.bind_ok _ _ c₁ hcb] at h ⊢
      have h1 := (callback_ok_flatten w dataset size c c₁ t hcb).1
      have h2 := ih c₁ c' h
      simp only [upserts_append, List.map_append, List.flatten_append, List.append_assoc]
      rw [h2, ← List.append_assoc, h1]
      simp

theorem callback_nonEmptyBatch (w : World) (dataset : String) (size : Int) (c : Captured)
    (s : Statement) (hc : c.qid ≠ "" → c.stmts ≠ []) :
    (callback w dataset size c s).All NonEmptyBatch := by
  intro e he key stmts hk
  rw [callback_eq] at he
  rw [hk] at he
  split_ifs at he with hclose <;>
    simp only [List.mem_cons, List.mem_singleton, Event.redisAdd.injEq, List.not_mem_nil,
      or_false, reduceCtorEq] at he
  all_goals rw [he.2]; exact hc hclose.2

theorem deliver_nonEmptyBatch (w : World) (dataset : String) (size : Int) :
    ∀ (rows : List Statement) (c : Captured), (c.qid ≠ "" → c.stmts ≠ []) →
      (deliver w dataset size c rows).All NonEmptyBatch := by
  intro rows
  induction rows with
  | nil => intro c _; exact Exec.all_pure _ _
  | cons t rest ih =>
    intro c hc
    rw [deliver_cons]
    refine Exec.all_bind_ok (callback_nonEmptyBatch w dataset size c t hc) (fun c₁ h₁ => ?_)
    exact ih c₁ (fun _ => (callback_ok_flatten w dataset size c c₁ t h₁).2)

/-- With a step different from zero and upserts that return, the stream is
delivered to its end. -/
theorem deliver_ok_of_step (w : World) (dataset : String) (size : Int)
    (hstep : size.tdiv 100 ≠ 0) (hadd : ∀ k v, w.redisAdd k v = true) :
    ∀ (rows : List Statement) (c : Captured),
      ∃ c', (deliver w dataset size c rows).result = .ok c' := by
  intro rows
  induction rows with
  | nil => intro c; exact ⟨c, rfl⟩
  | cons t rest ih =>
    intro c
    have hcb : ∃ c₁, (callback w dataset size c t).result = .ok c₁ := by
      rw [callback_eq]
      simp only [hadd, hstep, if_true, if_false]
      split_ifs <;> exact ⟨_, rfl⟩
    obtain ⟨c₁, h₁⟩ := hcb
    obtain ⟨c', h'⟩ := ih c₁
    exact ⟨c', by rw [deliver_cons, Exec.bind_ok _ _ c₁ h₁]; exact h'⟩

/-- Behind C17: with a step different from zero, a stream that returns and
upserts that return, whatever the subjects and their order, the batches upserted
for a scope, in order, make up the stream, and none of them is empty. -/
theorem processDataset_batches_of_step (w : World) (count : Int) (dataset : String)
    (size : Int) (rows : List Statement)
    (hsize : w.countStatements UNAPPROVED dataset = some size)
    (hstep : size.tdiv 100 ≠ 0)
    (hrows : w.getAllStatements UNAPPROVED dataset = (rows, false))
    (hadd : ∀ k v, w.redisAdd k v = true) :
    ((upserts (processDataset w count dataset).events).map Prod.snd).flatten = rows ∧
      ∀ kb ∈ upserts (processDataset w count dataset).events, kb.2 ≠ [] := by
  obtain ⟨c, hc⟩ := deliver_ok_of_step w dataset size hstep hadd rows ⟨[], "", count⟩
  have hflat := deliver_ok_flatten w dataset size rows _ c hc
  have hne := deliver_nonEmptyBatch w dataset size rows ⟨[], "", count⟩ (fun h => absurd rfl h)
  rw [processDataset_upserts w count dataset size rows hsize hrows, hc]
  constructor
  · by_cases hlen : c.stmts.length > 0
    · simpa [hlen] using hflat
    · have hnil : c.stmts = [] := List.length_eq_zero.1 (by omega)
      simpa [hlen, hnil] using hflat
  · intro kb hkb
    rcases List.mem_append.1 hkb with h | h
    · obtain ⟨key, stmts⟩ := kb
      exact hne _ ((mem_upserts key stmts _).1 h) key stmts rfl
    · simp only at h
      split_ifs at h with hlen
      · simp only [List.mem_singleton] at h
        rw [h]
        exact List.length_pos.1 hlen
      · simp at h

theorem scopeCalls_append (xs ys : List Event) :
    scopeCalls (xs ++ ys) = scopeCalls xs ++ scopeCalls ys := by
  induction xs with
  | nil => rfl
  | cons e es ih => cases e <;> simp [scopeCalls, ih]

theorem scopeCalls_eq_nil (es : List Event) (h : ∀ e ∈ es, e.notScopeCall = true) :
    scopeCalls es = [] := by
  induction es with
  | nil => rfl
  | cons e es ih =>
    have he := h e (List.mem_cons_self _ _)
    have hes := ih (fun x hx => h x (List.mem_cons_of_mem _ hx))
    cases e <;> simp_all [scopeCalls, Event.notScopeCall]

theorem callback_notScopeCall (w : World) (dataset : String) (size : Int) (c : Captured)
    (s : Statement) : (callback w dataset size c s).All (fun e => e.notScopeCall = true) := by
  unfold callback
  simp only [Exec.bind_eq]
  repeat' first
    | exact Exec.all_pure _ _
    | exact Exec.all_rem _ _ _
    | exact Exec.all_emit _ _ rfl
    | exact Exec.all_call _ _ _ _ rfl rfl
    | refine Exec.all_bind ?_ (fun _ => ?_)
    | split

theorem deliver_notScopeCall (w : World) (dataset : String) (size : Int) :
    ∀ (rows : List Statement) (c : Captured),
      (deliver w dataset size c rows).All (fun e => e.notScopeCall = true) := by
  intro rows
  induction rows with
  | nil => intro c; exact Exec.all_pure _ _
  | cons s rest ih =>
    intro c
    rw [deliver_cons]
    exact Exec.all_bind (callback_notScopeCall w dataset size c s) (fun c => ih c)

theorem processDataset_ok_scopeCalls (w : World) (count : Int) (dataset : String) (n : Int)
    (h : (processDataset w count dataset).result = .ok n) :
    scopeCalls (processDataset w count dataset).events =
      [.countStatements UNAPPROVED dataset, .getAllStatements UNAPPROVED dataset] := by
  rw [processDataset_eq] at h ⊢
  cases hsize : w.countStatements UNAPPROVED dataset with
  | none => simp [hsize] at h
  | some size =>
    simp only [hsize] at h ⊢
    have hD := scopeCalls_eq_nil _ (deliver_notScopeCall w dataset size
      (w.getAllStatements UNAPPROVED dataset).1 ⟨[], "", count⟩)
    cases hd : (deliver w dataset size ⟨[], "", count⟩
        (w.getAllStatements UNAPPROVED dataset).1).result with
    | error e => simp [hd] at h
    | ok c =>
      simp only [hd] at h ⊢
      split_ifs at h ⊢ <;> simp [scopeCalls_append, hD, scopeHead, scopeCalls] at h ⊢

/-- Behind C12: when the loop over the scopes runs to its end, its calls to the
reader are one count and one stream per scope, in the order of the list. -/
theorem forDatasets_ok_scopeCalls (w : World) :
    ∀ (ds : List String) (count n : Int), (forDatasets w count ds).result = .ok n →
      scopeCalls (forDatasets w count ds).events = callsOfScopes ds := by
  intro ds
  induction ds with
  | nil => intro count n _; rfl
  | cons d rest ih =>
    intro count n h
    rw [forDatasets_cons] at h ⊢
    cases hp : (processDataset w count d).result with
    | error e => rw [Exec.bind_error _ _ e hp] at h; cases h
    | ok m =>
      rw [Exec.bind_ok _ _ m hp] at h ⊢
      simp only [scopeCalls_append, processDataset_ok_scopeCalls w count d m hp, ih m n h,
        callsOfScopes, List.cons_append, List.nil_append]

/-- Behind C12: in an update run in which nothing fails, the calls to the reader
for a scope are those of the scope list `"" :: ds`, in order. -/
theorem main_ok_scopeCalls (fl : Flags) (w : World) (n : Int)
    (hm : fl.mode = "update") (hc : fl.c ≠ "")
    (hcfg : w.readConfig fl.c = true) (hredis : w.newRedisCacheService = true)
    (hok : (updateRun w).result = .ok n) :
    ∃ ds, w.getDatasets = some ds ∧
      scopeCalls (main fl w).events = callsOfScopes ("" :: ds) := by
  obtain ⟨hn, ds, hds, ⟨m, hm'⟩, hev⟩ := updateRun_ok w n hok
  refine ⟨ds, hds, ?_⟩
  have hcl : fl.mode ≠ "clear" := by rw [hm]; decide
  have hmain : (main fl w).events =
      [.readConfig fl.c, .newRedisCacheService] ++ (updateRun w).events := by
    unfold main
    rw [setUp_eq]
    simp [hc, hcfg, hredis, hcl, hm, hok]
  rw [hmain, hev]
  simp only [scopeCalls_append, forDatasets_ok_scopeCalls w _ 0 m hm']
  simp [scopeCalls, txHead]

/-- Behind C15: with a step different from zero, a stream that returns, upserts
that return and no empty subject, whatever the order of the subjects, the
upserts of a scope are one per maximal run of equal subject, so a subject that
comes back is written once per run under the same key. -/
theorem processDataset_runs_of_step (w : World) (count : Int) (dataset : String)
    (size : Int) (rows : List Statement)
    (hsize : w.countStatements UNAPPROVED dataset = some size)
    (hstep : size.tdiv 100 ≠ 0)
    (hrows : w.getAllStatements UNAPPROVED dataset = (rows, false))
    (hadd : ∀ k v, w.redisAdd k v = true)
    (hne : ∀ s ∈ rows, s.qid ≠ "") :
    upserts (processDataset w count dataset).events = (runs rows).map (batchOf dataset) := by
  rw [processDataset_upserts w count dataset size rows hsize hrows]
  cases rows with
  | nil => simp [deliver, Exec.pure_eq, upserts, runs]
  | cons a rest =>
    obtain ⟨c, hc, hnil, heq⟩ := deliver_initial w dataset size hstep hadd a rest count hne
    have hlen : c.stmts.length > 0 := List.length_pos.2 hnil
    rw [hc]
    simpa [hlen] using heq

/-! ## The entry of a subject that comes back (behind C15) -/

/-- Without exception and without `Clear`, the writes of a list of events are
its upserts. -/
theorem cacheOps_of_returned :
    ∀ es : List Event, (∀ s, Event.exception s ∉ es) → Event.redisClear ∉ es →
      cacheOps es = (upserts es).map (fun kb => CacheOp.put kb.1 kb.2) := by
  intro es
  induction es with
  | nil => intro _ _; rfl
  | cons e es ih =>
    intro hex hcl
    have ih' := ih (fun s h => hex s (List.mem_cons_of_mem _ h))
      (fun h => hcl (List.mem_cons_of_mem _ h))
    cases e with
    | redisClear => exact absurd (List.mem_cons_self _ _) hcl
    | exception s => exact absurd (List.mem_cons_self _ _) (hex s)
    | redisAdd key stmts =>
      cases es with
      | nil => simp [cacheOps, upserts]
      | cons e' es' =>
        cases e' with
        | exception s =>
          exact absurd (List.mem_cons_of_mem _ (List.mem_cons_self _ _)) (hex s)
        | _ =>
          simp [cacheOps, upserts] at ih' ⊢
          exact ih'
    | _ =>
      simp [cacheOps, upserts] at ih' ⊢
      exact ih'

theorem lastEffect_puts_none (k : String) :
    ∀ us : List (String × Statements), (∀ kb ∈ us, kb.1 ≠ k) →
      lastEffect k (us.map (fun kb => CacheOp.put kb.1 kb.2)) = none := by
  intro us
  induction us with
  | nil => intro _; rfl
  | cons kb us ih =>
    intro h
    have h1 : k ≠ kb.1 := fun e => h kb (List.mem_cons_self _ _) e.symm
    simp [lastEffect, ih (fun x hx => h x (List.mem_cons_of_mem _ hx)), CacheOp.effect, h1]

theorem lastEffect_append_some (k : String) (v : Option Statements) :
    ∀ (ops rest : List CacheOp), lastEffect k rest = some v →
      lastEffect k (ops ++ rest) = some v := by
  intro ops
  induction ops with
  | nil => intro rest h; simpa using h
  | cons op ops ih =>
    intro rest h
    simp [lastEffect, ih rest h]

/-- After a list of upserts, the entry of a key is the batch of the last upsert
under that key. -/
theorem applyOps_puts_last (k : String) (r : Statements) (pre post : List (String × Statements))
    (c : Cache) (hpost : ∀ kb ∈ post, kb.1 ≠ k) :
    applyOps ((pre ++ (k, r) :: post).map (fun kb => CacheOp.put kb.1 kb.2)) c k = some r := by
  rw [applyOps_eq, List.map_append, lastEffect_append_some k (some r)]
  · rfl
  · simp [lastEffect, lastEffect_puts_none k post hpost, CacheOp.effect]

/-- Behind C15: with a step different from zero, a stream that returns, upserts
that return and no empty subject, the entry of the key of a subject after the
upserts of the scope is the last run of that subject, whatever the cache held
before and whatever the earlier runs of the subject were. -/
theorem processDataset_entry_is_last_run (w : World) (count : Int) (dataset : String)
    (size : Int) (rows : List Statement) (c : Cache)
    (pre post : List (List Statement)) (r : List Statement)
    (hsize : w.countStatements UNAPPROVED dataset = some size)
    (hstep : size.tdiv 100 ≠ 0)
    (hrows : w.getAllStatements UNAPPROVED dataset = (rows, false))
    (hadd : ∀ k v, w.redisAdd k v = true)
    (hne : ∀ s ∈ rows, s.qid ≠ "")
    (hruns : runs rows = pre ++ r :: post)
    (hlast : ∀ r' ∈ post, runSubject r' ≠ runSubject r) :
    applyOps (cacheOps (processDataset w count dataset).events) c
      (createCacheKey (runSubject r) UNAPPROVED dataset) = some r := by
  have hups := processDataset_runs_of_step w count dataset size rows hsize hstep hrows hadd hne
  have hok : ∃ n, (processDataset w count dataset).result = .ok n := by
    obtain ⟨c', hc'⟩ := deliver_ok_of_step w dataset size hstep hadd rows ⟨[], "", count⟩
    rw [processDataset_eq, hsize]
    simp only [hrows, hc', hadd, Bool.false_eq_true, if_false, if_true]
    split_ifs <;> exact ⟨_, rfl⟩
  obtain ⟨n, hn⟩ := hok
  have hex : ∀ s, Event.exception s ∉ (processDataset w count dataset).events :=
    Exec.no_exception_of_ok (processDataset_halts w count dataset) hn
  have hcl : Event.redisClear ∉ (processDataset w count dataset).events := by
    intro h
    have := processDataset_inLoop w count dataset _ h
    cases this
  rw [cacheOps_of_returned _ hex hcl, hups, hruns, List.map_append, List.map_cons]
  refine applyOps_puts_last _ r _ _ c ?_
  intro kb hkb
  obtain ⟨r', hr', rfl⟩ := List.mem_map.1 hkb
  exact fun h => hlast r' hr' (createCacheKey_subject_inj _ _ _ _ h)

/-! ## Progress against the statements delivered (C13) -/

set_option maxRecDepth 100000 in
/-- C13, the failing input: a scope with 100 statements (99 of `Q1`, one of
`Q2`) and the total 100, so that the step `size / 100` is 1. While the 100
statements are delivered there is one progress update, after the upsert that
closes the batch of `Q1`, and its value is 1, the number of batches closed, not
the 100 statements delivered. In `counterWorld` the same stream is the later
scope "w": the counter is not reset and the update carries 102, above the total
100 the progress bar of the scope was built with. -/
theorem processDataset_progress_counts_batches :
    hundredRows.length = 100 ∧
    processDataset (World.quiet [] (fun _ => 100) (fun _ => hundredRows)) 0 "" =
      ⟨[.countStatements UNAPPROVED "", .progressUpdate 0, .getAllStatements UNAPPROVED "",
        .redisAdd "Q1-0" (List.replicate 99 ⟨"Q1", "x"⟩), .progressUpdate 1,
        .redisAdd "Q2-0" [⟨"Q2", "y"⟩], .progressUpdate 100], .ok 1⟩ ∧
    counterWorld.getAllStatements UNAPPROVED "w" = (hundredRows, false) ∧
    counterWorld.countStatements UNAPPROVED "w" = some 100 ∧
    (forDatasets counterWorld 0 ["", "w"]).events.drop
        ((forDatasets counterWorld 0 [""]).events.length) =
      [.countStatements UNAPPROVED "w", .progressUpdate 0, .getAllStatements UNAPPROVED "w",
        .redisAdd "Q1-w-0" (List.replicate 99 ⟨"Q1", "x"⟩), .progressUpdate 102,
        .redisAdd "Q2-w-0" [⟨"Q2", "y"⟩], .progressUpdate 100] := by
  decide

/-- C18 (amended). For a stream that starts with statements of empty subject
followed by a statement of subject `q`, not empty, the first upsert of the scope
is the batch of `q`, under the key of `q`: the statements of empty subject
followed by the first run of `q`; they are not written as a batch of their own.
An upsert under the key of the empty subject is issued only when the last
statement of the stream has the empty subject. -/
theorem processDataset_leading_empty_subjects (w : World) (count : Int) (dataset : String)
    (size : Int) (empties : List Statement) (s : Statement) (rest : List Statement)
    (hsize : w.countStatements UNAPPROVED dataset = some size)
    (hrows : w.getAllStatements UNAPPROVED dataset = (empties ++ s :: rest, false))
    (hempty : ∀ e ∈ empties, e.qid = "") (hq : s.qid ≠ "") :
    (∃ tail, upserts (processDataset w count dataset).events =
      (createCacheKey s.qid UNAPPROVED dataset,
        empties ++ s :: rest.takeWhile (fun t => t.qid == s.qid)) :: tail) ∧
    (∀ kb ∈ upserts (processDataset w count dataset).events,
      kb.1 = createCacheKey "" UNAPPROVED dataset →
      ∃ t, rest.getLast? = some t ∧ t.qid = "") := by
  have hups := processDataset_upserts w count dataset size _ hsize hrows
  have hD : deliver w dataset size ⟨[], "", count⟩ (empties ++ s :: rest) =
      deliver w dataset size ⟨empties ++ [s], s.qid, count⟩ rest := by
    rw [deliver_empties w dataset size empties _ _ rfl hempty, deliver_cons,
      callback_marker w dataset size _ s rfl, Exec.bind_pure_left]
    simp
  constructor
  · rw [hups, hD]
    rcases deliver_first_run w dataset size rest ⟨empties ++ [s], s.qid, count⟩ hq with
      ⟨tail, h⟩ | ⟨h1, h2⟩
    · rw [h]
      simp only [List.cons_append, List.append_assoc, List.singleton_append]
      exact ⟨_, rfl⟩
    · refine ⟨[], ?_⟩
      simp only at h1 h2
      rw [h1, h2]
      simp [upserts]
  · intro kb hkb hkey
    rw [hups] at hkb
    rcases List.mem_append.1 hkb with hmem | hmem
    · obtain ⟨key, stmts⟩ := kb
      have hev := (mem_upserts key stmts _).1 hmem
      obtain ⟨q, hq0, hk⟩ := deliver_keyOfSubject w dataset size _ _ _ hev key stmts rfl
      simp only at hkey
      rw [hk] at hkey
      exact absurd (createCacheKey_subject_inj q "" UNAPPROVED dataset hkey) hq0
    · cases hd : (deliver w dataset size ⟨[], "", count⟩ (empties ++ s :: rest)).result with
      | error e => simp [hd] at hmem
      | ok c =>
        have hqid := deliver_ok_qid w dataset size _ _ c hd
        simp only [hd] at hmem
        split_ifs at hmem
        · simp only [List.mem_singleton] at hmem
          rw [hmem] at hkey
          have hc : c.qid = "" := createCacheKey_subject_inj c.qid "" UNAPPROVED dataset hkey
          rw [hc] at hqid
          simp only [List.getLast?_append, List.getLast?_cons] at hqid
          cases hl : rest.getLast? with
          | none =>
            rw [hl] at hqid
            exact absurd (by simpa using hqid.symm) hq
          | some t =>
            rw [hl] at hqid
            exact ⟨t, rfl, by simpa using hqid.symm⟩
        · simp at hmem

set_option maxRecDepth 100000 in
/-- C18, witness: the stream of `trailingEmptyRows`, with its total, 100. -/
theorem processDataset_leading_empty_subjects_witness :
    (∃ tail, upserts (processDataset (World.quiet [] (fun _ => 100)
        (fun _ => trailingEmptyRows)) 0 "").events =
      (createCacheKey "Q1" UNAPPROVED "",
        List.replicate 98 (⟨"", "A"⟩ : Statement) ++ (⟨"Q1", "B"⟩ : Statement) ::
          ([⟨"", "C"⟩] : List Statement).takeWhile (fun t => t.qid == "Q1")) :: tail) ∧
    (∀ kb ∈ upserts (processDataset (World.quiet [] (fun _ => 100)
        (fun _ => trailingEmptyRows)) 0 "").events,
      kb.1 = createCacheKey "" UNAPPROVED "" →
      ∃ t, ([⟨"", "C"⟩] : List Statement).getLast? = some t ∧ t.qid = "") :=
  processDataset_leading_empty_subjects
    (World.quiet [] (fun _ => 100) (fun _ => trailingEmptyRows)) 0 "" 100
    (List.replicate 98 ⟨"", "A"⟩) ⟨"Q1", "B"⟩ [⟨"", "C"⟩] rfl (by decide) (by decide) (by decide)

set_option maxRecDepth 100000 in
/-- C18, counterexample: the stream of `trailingEmptyRows` starts with
statements of empty subject followed by a statement of `Q1`, and every call
returns; its last statement, of empty subject, is written by the final flush as
a batch of the empty subject, under the key "-0". -/
theorem processDataset_trailing_empty_subject_counterexample :
    trailingEmptyRows.length = 100 ∧
    createCacheKey "" UNAPPROVED "" = "-0" ∧
    (processDataset (World.quiet [] (fun _ => 100) (fun _ => trailingEmptyRows)) 0 "").result
      = .ok 1 ∧
    upserts (processDataset (World.quiet [] (fun _ => 100)
        (fun _ => trailingEmptyRows)) 0 "").events =
      [("Q1-0", List.replicate 98 ⟨"", "A"⟩ ++ [⟨"Q1", "B"⟩]), ("-0", [⟨"", "C"⟩])] := by
  decide

/-! ## Two update runs over the same reader contents (C6) -/

/-- When the callback returns in two worlds, it does the same in both. -/
theorem callback_congr_ok (w₁ w₂ : World) (dataset : String) (size : Int) (c c₁ c₂ : Captured)
    (s : Statement) (h₁ : (callback w₁ dataset size c s).result = .ok c₁)
    (h₂ : (callback w₂ dataset size c s).result = .ok c₂) :
    callback w₁ dataset size c s = callback w₂ dataset size c s := by
  rw [callback_eq] at h₁ h₂ ⊢
  rw [callback_eq]
  by_cases hclose : c.qid ≠ s.qid ∧ c.qid ≠ ""
  · simp only [if_pos hclose] at h₁ h₂ ⊢
    by_cases ha₁ : w₁.redisAdd (createCacheKey c.qid UNAPPROVED dataset) c.stmts = true
    · by_cases ha₂ : w₂.redisAdd (createCacheKey c.qid UNAPPROVED dataset) c.stmts = true
      · simp only [ha₁, ha₂, if_true]
      · simp [ha₂] at h₂
    · simp [ha₁] at h₁
  · simp only [if_neg hclose]

theorem deliver_congr_ok (w₁ w₂ : World) (dataset : String) (size : Int) :
    ∀ (rows : List Statement) (c c₁ c₂ : Captured),
      (deliver w₁ dataset size c rows).result = .ok c₁ →
      (deliver w₂ dataset size c rows).result = .ok c₂ →
      deliver w₁ dataset size c rows = deliver w₂ dataset size c rows := by
  intro rows
  induction rows with
  | nil => intro c c₁ c₂ _ _; rfl
  | cons t rest ih =>
    intro c c₁ c₂ h₁ h₂
    rw [deliver_cons] at h₁ h₂ ⊢
    rw [deliver_cons]
    cases hcb₁ : (callback w₁ dataset size c t).result with
    | error e => rw [Exec.bind_error _ _ e hcb₁] at h₁; cases h₁
    | ok a₁ =>
      cases hcb₂ : (callback w₂ dataset size c t).result with
      | error e => rw [Exec.bind_error _ _ e hcb₂] at h₂; cases h₂
      | ok a₂ =>
        have hcb := callback_congr_ok w₁ w₂ dataset size c a₁ a₂ t hcb₁ hcb₂
        have ha : a₁ = a₂ := by
          rw [hcb, hcb₂] at hcb₁
          exact (Except.ok.inj hcb₁).symm
        subst ha
        rw [Exec.bind_ok _ _ a₁ hcb₁] at h₁
        rw [Exec.bind_ok _ _ a₁ hcb₂] at h₂
        rw [Exec.bind_ok _ _ a₁ hcb₁, Exec.bind_ok _ _ a₁ hcb₂, hcb, ih a₁ c₁ c₂ h₁ h₂]

theorem processDataset_congr_ok (w₁ w₂ : World) (hr : SameReader w₁ w₂) (count : Int)
    (dataset : String) (n₁ n₂ : Int)
    (h₁ : (processDataset w₁ count dataset).result = .ok n₁)
    (h₂ : (processDataset w₂ count dataset).result = .ok n₂) :
    processDataset w₁ count dataset = processDataset w₂ count dataset := by
  obtain ⟨_, hcount, hstream⟩ := hr
  rw [processDataset_eq] at h₁ h₂ ⊢
  rw [processDataset_eq]
  rw [← hcount, ← hstream] at h₂ ⊢
  cases hsize : w₁.countStatements UNAPPROVED dataset with
  | none => simp [hsize] at h₁
  | some size =>
    simp only [hsize] at h₁ h₂ ⊢
    cases hd₁ : (deliver w₁ dataset size ⟨[], "", count⟩
        (w₁.getAllStatements UNAPPROVED dataset).1).result with
    | error e => simp [hd₁] at h₁
    | ok c₁ =>
      cases hd₂ : (deliver w₂ dataset size ⟨[], "", count⟩
          (w₁.getAllStatements UNAPPROVED dataset).1).result with
      | error e => simp [hd₂] at h₂
      | ok c₂ =>
        have hD := deliver_congr_ok w₁ w₂ dataset size _ _ c₁ c₂ hd₁ hd₂
        have hc : c₁ = c₂ := by
          rw [hD, hd₂] at hd₁
          exact (Except.ok.inj hd₁).symm
        subst hc
        simp only [hd₁, hd₂, hD] at h₁ h₂ ⊢
        by_cases hraise : (w₁.getAllStatements UNAPPROVED dataset).2 = true
        · simp [hraise] at h₁
        · simp only [hraise, if_false] at h₁ h₂ ⊢
          by_cases hlen : c₁.stmts.length > 0
          · simp only [hlen, if_true] at h₁ h₂ ⊢
            by_cases ha₁ : w₁.redisAdd (createCacheKey c₁.qid UNAPPROVED dataset) c₁.stmts = true
            · by_cases ha₂ :
                w₂.redisAdd (createCacheKey c₁.qid UNAPPROVED dataset) c₁.stmts = true
              · simp only [ha₁, ha₂, if_true]
              · simp [ha₂] at h₂
            · simp [ha₁] at h₁
          · simp only [hlen, if_false]

theorem forDatasets_congr_ok (w₁ w₂ : World) (hr : SameReader w₁ w₂) :
    ∀ (ds : List String) (count n₁ n₂ : Int),
      (forDatasets w₁ count ds).result = .ok n₁ →
      (forDatasets w₂ count ds).result = .ok n₂ →
      forDatasets w₁ count ds = forDatasets w₂ count ds := by
  intro ds
  induction ds with
  | nil => intro count n₁ n₂ _ _; rfl
  | cons d rest ih =>
    intro count n₁ n₂ h₁ h₂
    rw [forDatasets_cons] at h₁ h₂ ⊢
    rw [forDatasets_cons]
    cases hp₁ : (processDataset w₁ count d).result with
    | error e => rw [Exec.bind_error _ _ e hp₁] at h₁; cases h₁
    | ok m₁ =>
      cases hp₂ : (processDataset w₂ count d).result with
      | error e => rw [Exec.bind_error _ _ e hp₂] at h₂; cases h₂
      | ok m₂ =>
        have hP := processDataset_congr_ok w₁ w₂ hr count d m₁ m₂ hp₁ hp₂
        have hm : m₁ = m₂ := by
          rw [hP, hp₂] at hp₁
          exact (Except.ok.inj hp₁).symm
        subst hm
        rw [Exec.bind_ok _ _ m₁ hp₁] at h₁
        rw [Exec.bind_ok _ _ m₁ hp₂] at h₂
        rw [Exec.bind_ok _ _ m₁ hp₁, Exec.bind_ok _ _ m₁ hp₂, hP, ih m₁ n₁ n₂ h₁ h₂]

/-- An update run that exits with code 0 had its configuration path, its set-up
and its guarded block run to their end. -/
theorem main_update_exit_zero (fl : Flags) (w : World) (hm : fl.mode = "update")
    (h : (main fl w).outcome = .exit 0) :
    (updateRun w).result = .ok 0 ∧
      main fl w = ⟨[.readConfig fl.c, .newRedisCacheService] ++ (updateRun w).events, .exit 0⟩ := by
  have hcl : fl.mode ≠ "clear" := by rw [hm]; decide
  unfold main at h ⊢
  rw [setUp_eq] at h ⊢
  by_cases hc : fl.c = ""
  · simp [hc] at h
  by_cases hcfg : w.readConfig fl.c = true
  swap
  · simp [hc, hcfg] at h
  by_cases hredis : w.newRedisCacheService = true
  swap
  · simp [hc, hcfg, hredis] at h
  cases hr : (updateRun w).result with
  | error e => cases e <;> simp [hc, hcfg, hredis, hcl, hm, hr] at h
  | ok n =>
    have hn := (updateRun_ok w n hr).1
    subst hn
    simp [hc, hcfg, hredis, hcl, hm, hr]

theorem Exec.eq_of_fields {α : Type} {x y : Exec α} (he : x.events = y.events)
    (hr : x.result = y.result) : x = y := by
  cases x; cases y; simp_all

theorem updateRun_congr_ok (w₁ w₂ : World) (hr : SameReader w₁ w₂) (n₁ n₂ : Int)
    (h₁ : (updateRun w₁).result = .ok n₁) (h₂ : (updateRun w₂).result = .ok n₂) :
    updateRun w₁ = updateRun w₂ := by
  obtain ⟨hn₁, ds₁, hds₁, ⟨m₁, hm₁⟩, hev₁⟩ := updateRun_ok w₁ n₁ h₁
  obtain ⟨hn₂, ds₂, hds₂, ⟨m₂, hm₂⟩, hev₂⟩ := updateRun_ok w₂ n₂ h₂
  have hds : ds₁ = ds₂ := by
    have := hr.1
    rw [hds₁, hds₂] at this
    exact Option.some.inj this
  subst hds
  have hfd := forDatasets_congr_ok w₁ w₂ hr ("" :: ds₁) 0 m₁ m₂ hm₁ hm₂
  refine Exec.eq_of_fields ?_ ?_
  · rw [hev₁, hev₂, hfd]
  · rw [h₁, h₂, hn₁, hn₂]

/-- C6. Two update runs over the same reader contents (the same dataset list,
totals and streams), in which every collaborator answers the same (whatever the
outcome of the runs) or which both exit with code 0 (whatever the other
collaborators would answer elsewhere), issue the same upserts, key by key and
batch by batch, in the same order; so the second run leaves the cache of the
first run as it is, whatever the cache the first run started from. -/
theorem main_update_twice (fl : Flags) (w₁ w₂ : World) (c : Cache)
    (hm : fl.mode = "update") (hr : SameReader w₁ w₂)
    (h : w₂ = w₁ ∨ ((main fl w₁).outcome = .exit 0 ∧ (main fl w₂).outcome = .exit 0)) :
    upserts (main fl w₂).events = upserts (main fl w₁).events ∧
      cacheAfter (main fl w₂) (cacheAfter (main fl w₁) c) = cacheAfter (main fl w₁) c := by
  have hsame : main fl w₂ = main fl w₁ := by
    rcases h with h | ⟨h₁, h₂⟩
    · rw [h]
    · obtain ⟨hu₁, hmain₁⟩ := main_update_exit_zero fl w₁ hm h₁
      obtain ⟨hu₂, hmain₂⟩ := main_update_exit_zero fl w₂ hm h₂
      rw [hmain₁, hmain₂, updateRun_congr_ok w₁ w₂ hr 0 0 hu₁ hu₂]
  rw [hsame]
  exact ⟨rfl, applyOps_idempotent _ c⟩

set_option maxRecDepth 100000 in
/-- C6, witness: the runs over `counterWorld` and over `counterWorldAgain`, from
the empty cache. -/
theorem main_update_twice_witness :
    SameReader counterWorld counterWorldAgain ∧
    (main ⟨"conf.json", "update"⟩ counterWorld).outcome = .exit 0 ∧
    (main ⟨"conf.json", "update"⟩ counterWorldAgain).outcome = .exit 0 ∧
    (upserts (main ⟨"conf.json", "update"⟩ counterWorldAgain).events =
        upserts (main ⟨"conf.json", "update"⟩ counterWorld).events ∧
      cacheAfter (main ⟨"conf.json", "update"⟩ counterWorldAgain)
          (cacheAfter (main ⟨"conf.json", "update"⟩ counterWorld) (fun _ => none)) =
        cacheAfter (main ⟨"conf.json", "update"⟩ counterWorld) (fun _ => none)) :=
  ⟨⟨rfl, rfl, rfl⟩, by decide, by decide,
    main_update_twice ⟨"conf.json", "update"⟩ counterWorld counterWorldAgain (fun _ => none) rfl
      ⟨rfl, rfl, rfl⟩ (Or.inr ⟨by decide, by decide⟩)⟩

end UpdateCache
